import Mathlib

/-! RecordCodec: decoding of generic PostgreSQL records

A shallow embedding of `pgtype/record_codec.go`.

* Go byte slices are `Option Bytes`: `none` is the nil slice, `some bs` a non-nil one.
* Go `(value, error)` results are pairs `α × Option Error`; `none` is the nil error.
* Go `interface{}` values are `Value`; `Value.nil` is the nil interface.
* Collaborators declared outside `record_codec.go` (the format-code constants, the
  binary field scanner, the type registry `ConnInfo`, the `CompositeIndexScanner`
  sink) are parameters of the embedded functions.
* Mutable state reached through a sink (the sink itself and the destinations it hands
  out) is an explicit state `W` threaded through every call that may write to it.
* The `for ...; scanner.Next(); ...` loops recurse on a fuel argument; a loop that is
  cut short by the fuel reports `Outcome.outOfFuel`.
-/

namespace Pgtype

/-! ## Data model -/

abbrev Byte := Fin 256

abbrev Bytes := List Byte

/-- Go `error` values that can leave `record_codec.go`. The two `fmt.Errorf` messages
built in this file are constructors carrying the formatted number; the rendering of the
`%v` operand of "unable to scan OID %d in binary format into %v" is not part of the
model. -/
inductive Error where
  /-- Line 56 and line 96: "unable to scan OID %d in binary format into %v". -/
  | unableToScanOID (oid : Nat)
  /-- Line 113: "unknown format code %d". -/
  | unknownFormatCode (format : Int)
  /-- Line 78: "not implemented". -/
  | notImplemented
  /-- The structural error of the binary field scanner. -/
  | structural
  /-- Any error value produced by a collaborator (nested strategy, sink). -/
  | other (id : Nat)
  deriving DecidableEq, Repr

/-- Go `interface{}` values as they appear in results of `DecodeValue`. -/
inductive Value where
  /-- The nil interface. -/
  | nil
  /-- A Go `string`, as produced by `string(src)`. -/
  | string (s : Bytes)
  /-- A 32-bit integer produced by a nested strategy. -/
  | int32 (n : Int)
  /-- A `[]interface{}`. -/
  | slice (vs : List Value)

/-- How a call of a modelled Go function ends. -/
inductive Outcome (α : Type) where
  /-- The call returned `a`. -/
  | returned (a : α)
  /-- The call ended in a runtime panic. -/
  | panicked
  /-- The fuel given to the model ran out before the call ended. -/
  | outOfFuel

/-- The format-code constants `TextFormatCode` and `BinaryFormatCode` used by
`record_codec.go`. They are declared elsewhere in the package, so their numeric values
are parameters. They are distinct: both label a `case` of the `switch format` in
`DecodeValue`, which Go rejects for equal constants. -/
structure FormatCodes where
  TextFormatCode : Int
  BinaryFormatCode : Int
  distinct : TextFormatCode ≠ BinaryFormatCode

/-- A nested decode strategy (`ScanPlan`) for a destination `D` living in state `W`:
`Scan src d w` is the state after `fieldPlan.Scan(src, d)` and the error it returned. -/
structure ScanPlan (W D : Type) where
  Scan : Option Bytes → D → W → W × Option Error

/-- The type registry `*ConnInfo`, seen through its method `PlanScan`, the only one
`record_codec.go` calls. `PlanScan` chooses a plan by the dynamic type of its target, so
the model has one lookup per kind of target that occurs in this file. -/
structure ConnInfo (W D : Type) where
  /-- Models `ci.PlanScan(oid, format, &v)` for a fresh `var v interface{}`: `none` is
  the nil plan; a plan maps the bytes passed to its `Scan` to the final content of `v`
  and the error returned. -/
  PlanScanValue : Nat → Int → Option (Option Bytes → Value × Option Error)
  /-- Models `ci.PlanScan(oid, format, fieldTarget)` for a destination handed out by a
  sink: `none` is the nil plan. -/
  PlanScan : Nat → Int → D → Option (ScanPlan W D)

/-- The sink interface `CompositeIndexScanner`: `ScanNull` returns an error, and
`ScanIndex i` returns the destination for field `i` (`none` is the nil interface). -/
structure CompositeIndexScanner (W D : Type) where
  ScanNull : W → W × Option Error
  ScanIndex : Nat → W → W × Option D

/-- The `target interface{}` argument of `PlanScan` and `Scan`, by dynamic type. -/
inductive ScanTarget (W D : Type) where
  /-- A value that implements `CompositeIndexScanner`. -/
  | indexScanner (t : CompositeIndexScanner W D)
  /-- A generic value cell, `*interface{}`. -/
  | valueCell
  /-- Any other destination. -/
  | dest (d : D)

/-- The result type `EncodePlan` of `PlanEncode`; `record_codec.go` never builds one. -/
structure EncodePlan where
  Encode : Value → Bytes → Bytes × Option Error

/-- One field as yielded by the scanner: what `OID()` and `Bytes()` report after a
successful `Next()`; `bytes = none` is a null field. -/
structure Field where
  oid : Nat
  bytes : Option Bytes

/-- The operations `record_codec.go` uses on a `*CompositeBinaryScanner` with state `σ`:
the constructor `NewCompositeBinaryScanner(ci, src)` and the methods `Next`, `OID`,
`Bytes`, `Err` and `FieldCount`. `Next` returns its boolean and the updated scanner. -/
structure ScannerOps (σ W D : Type) where
  New : ConnInfo W D → Bytes → σ
  Next : σ → Bool × σ
  OID : σ → Nat
  Bytes : σ → Option Bytes
  Err : σ → Option Error
  FieldCount : σ → Nat

/-! ## The binary field scanner -/

/-- Big-endian unsigned 32-bit integer of four bytes. -/
def be32 (b0 b1 b2 b3 : Byte) : Nat :=
  b0.val * 2 ^ 24 + b1.val * 2 ^ 16 + b2.val * 2 ^ 8 + b3.val

/-- Reading of an unsigned 32-bit integer as a signed one. -/
def toInt32 (n : Nat) : Int :=
  if n < 2 ^ 31 then (n : Int) else (n : Int) - 2 ^ 32

/-- Big-endian bytes of an unsigned 32-bit integer. -/
def putBe32 (n : Nat) : Bytes :=
  [Fin.ofNat (n / 2 ^ 24), Fin.ofNat (n / 2 ^ 16), Fin.ofNat (n / 2 ^ 8), Fin.ofNat n]

/-- Modelled from the spec: the state of the binary field scanner, whose source
(`CompositeBinaryScanner`) is not part of `record_codec.go`. `rest` is the part of the
buffer not yet consumed, `produced` the number of fields yielded so far. -/
structure CompositeBinaryScanner where
  rest : Bytes
  fieldCount : Nat
  produced : Nat
  fieldOID : Nat
  fieldBytes : Option Bytes
  err : Option Error

/-- Modelled from the spec: `NewCompositeBinaryScanner`, which is not part of
`record_codec.go`. The field count is parsed once from the 4-byte big-endian header; a
buffer too short for the header is a structural error. -/
def NewCompositeBinaryScanner (src : Bytes) : CompositeBinaryScanner :=
  match src with
  | b0 :: b1 :: b2 :: b3 :: rest =>
    { rest := rest, fieldCount := be32 b0 b1 b2 b3, produced := 0, fieldOID := 0,
      fieldBytes := none, err := none }
  | _ =>
    { rest := [], fieldCount := 0, produced := 0, fieldOID := 0, fieldBytes := none,
      err := some Error.structural }

/-- Modelled from the spec: `CompositeBinaryScanner.Next` (`advance()` in the spec),
which is not part of `record_codec.go`. It returns false when `FieldCount` fields have
been produced or a structural error occurred. Otherwise it parses a 4-byte big-endian
type identifier and a 4-byte big-endian signed length; length `-1` is a null field, any
other negative length is a structural error, and so is a buffer that ends before the
field does. -/
def CompositeBinaryScanner.Next (s : CompositeBinaryScanner) :
    Bool × CompositeBinaryScanner :=
  if s.err.isSome then (false, s)
  else if s.produced = s.fieldCount then (false, s)
  else
    match s.rest with
    | o0 :: o1 :: o2 :: o3 :: l0 :: l1 :: l2 :: l3 :: rest =>
      let length := toInt32 (be32 l0 l1 l2 l3)
      if length = -1 then
        (true, { s with rest := rest, produced := s.produced + 1,
                        fieldOID := be32 o0 o1 o2 o3, fieldBytes := none })
      else if length < 0 then
        (false, { s with err := some Error.structural })
      else if rest.length < length.toNat then
        (false, { s with err := some Error.structural })
      else
        (true, { s with rest := rest.drop length.toNat, produced := s.produced + 1,
                        fieldOID := be32 o0 o1 o2 o3,
                        fieldBytes := some (rest.take length.toNat) })
    | _ => (false, { s with err := some Error.structural })

/-- Modelled from the spec: the binary field scanner of section 4.1 as an
implementation of the scanner operations. The registry passed to the constructor is not
used: the spec constructs the scanner from the buffer alone. -/
def compositeBinaryScanner (W D : Type) : ScannerOps CompositeBinaryScanner W D where
  New := fun _ src => NewCompositeBinaryScanner src
  Next := CompositeBinaryScanner.Next
  OID := fun s => s.fieldOID
  Bytes := fun s => s.fieldBytes
  Err := fun s => s.err
  FieldCount := fun s => s.fieldCount

/-- The fields a scanner yields when `Next` is called until it returns false, together
with the scanner state at that point; `none` when `fuel` calls of `Next` do not reach
the end. -/
def drain {σ W D : Type} (sc : ScannerOps σ W D) : Nat → σ → Option (List Field × σ)
  | 0, _ => none
  | fuel + 1, scanner =>
    match sc.Next scanner with
    | (false, scanner) => some ([], scanner)
    | (true, scanner) =>
      match drain sc fuel scanner with
      | none => none
      | some (fs, final) => some (⟨sc.OID scanner, sc.Bytes scanner⟩ :: fs, final)

/-! ## RecordCodec -/

namespace RecordCodec

/-- Lines 16-18. -/
def FormatSupported (fc : FormatCodes) (format : Int) : Bool :=
  format == fc.BinaryFormatCode

/-- Lines 20-22. -/
def PreferredFormat (fc : FormatCodes) : Int :=
  fc.BinaryFormatCode

/-- Lines 24-26: `PlanEncode` returns the nil plan. -/
def PlanEncode {W D : Type} (_ci : ConnInfo W D) (_oid : Nat) (_format : Int)
    (_value : Value) : Option EncodePlan :=
  none

end RecordCodec

/-- Lines 39-41: the plan struct; it holds the registry. -/
structure scanPlanBinaryRecordToCompositeIndexScanner (W D : Type) where
  ci : ConnInfo W D

namespace RecordCodec

/-- Lines 28-37: a plan is returned for the binary format and a target whose dynamic
type implements `CompositeIndexScanner`; otherwise the nil plan. -/
def PlanScan {W D : Type} (fc : FormatCodes) (ci : ConnInfo W D) (_oid : Nat)
    (format : Int) (target : ScanTarget W D) (_actualTarget : Bool) :
    Option (scanPlanBinaryRecordToCompositeIndexScanner W D) :=
  if format = fc.BinaryFormatCode then
    match target with
    | .indexScanner _ => some { ci := ci }
    | _ => none
  else
    none

end RecordCodec

/-- Lines 51-70: the loop of `Scan` from the call of `scanner.Next()` on, with loop
counter `i` and sink state `w`, and the check of `scanner.Err()` after it. -/
def scanPlanBinaryRecordToCompositeIndexScanner.loop {σ W D : Type}
    (fc : FormatCodes) (sc : ScannerOps σ W D)
    (plan : scanPlanBinaryRecordToCompositeIndexScanner W D)
    (targetScanner : CompositeIndexScanner W D) :
    Nat → σ → Nat → W → Outcome (W × Option Error)
  | 0, _, _, _ => .outOfFuel
  | fuel + 1, scanner, i, w =>
    match sc.Next scanner with
    | (false, scanner) => .returned (w, sc.Err scanner)
    | (true, scanner) =>
      match targetScanner.ScanIndex i w with
      | (w, none) => loop fc sc plan targetScanner fuel scanner (i + 1) w
      | (w, some fieldTarget) =>
        match plan.ci.PlanScan (sc.OID scanner) fc.BinaryFormatCode fieldTarget with
        | none => .returned (w, some (Error.unableToScanOID (sc.OID scanner)))
        | some fieldPlan =>
          match fieldPlan.Scan (sc.Bytes scanner) fieldTarget w with
          | (w, some err) => .returned (w, some err)
          | (w, none) => loop fc sc plan targetScanner fuel scanner (i + 1) w

/-- Lines 43-71: `Scan`. The type assertion `(target).(CompositeIndexScanner)` panics
for a target of another dynamic type. -/
def scanPlanBinaryRecordToCompositeIndexScanner.Scan {σ W D : Type}
    (fc : FormatCodes) (sc : ScannerOps σ W D) (fuel : Nat)
    (plan : scanPlanBinaryRecordToCompositeIndexScanner W D)
    (src : Option Bytes) (target : ScanTarget W D) (w : W) :
    Outcome (W × Option Error) :=
  match target with
  | .indexScanner targetScanner =>
    match src with
    | none => .returned (targetScanner.ScanNull w)
    | some src =>
      scanPlanBinaryRecordToCompositeIndexScanner.loop fc sc plan targetScanner fuel
        (sc.New plan.ci src) 0 w
  | _ => .panicked

namespace RecordCodec

/-- Lines 73-79. -/
def DecodeDatabaseSQLValue {W D : Type} (_ci : ConnInfo W D) (_oid : Nat)
    (_format : Int) (src : Option Bytes) : Value × Option Error :=
  match src with
  | none => (Value.nil, none)
  | some _ => (Value.nil, some Error.notImplemented)

/-- Lines 92-111: the loop of the binary case of `DecodeValue` from the call of
`scanner.Next()` on, with loop counter `i` and the slice `values`, and the check of
`scanner.Err()` after it. The store `values[i] = v` panics when `i` is out of range. -/
def DecodeValue.loop {σ W D : Type} (fc : FormatCodes) (sc : ScannerOps σ W D)
    (ci : ConnInfo W D) : Nat → σ → Nat → List Value → Outcome (Value × Option Error)
  | 0, _, _, _ => .outOfFuel
  | fuel + 1, scanner, i, values =>
    match sc.Next scanner with
    | (false, scanner) =>
      match sc.Err scanner with
      | some err => .returned (Value.nil, some err)
      | none => .returned (Value.slice values, none)
    | (true, scanner) =>
      match ci.PlanScanValue (sc.OID scanner) fc.BinaryFormatCode with
      | none => .returned (Value.nil, some (Error.unableToScanOID (sc.OID scanner)))
      | some fieldPlan =>
        match fieldPlan (sc.Bytes scanner) with
        | (_, some err) => .returned (Value.nil, some err)
        | (v, none) =>
          if i < values.length then
            loop fc sc ci fuel scanner (i + 1) (values.set i v)
          else
            .panicked

/-- Lines 81-116: `DecodeValue`. -/
def DecodeValue {σ W D : Type} (fc : FormatCodes) (sc : ScannerOps σ W D) (fuel : Nat)
    (ci : ConnInfo W D) (_oid : Nat) (format : Int) (src : Option Bytes) :
    Outcome (Value × Option Error) :=
  match src with
  | none => .returned (Value.nil, none)
  | some src =>
    if format = fc.TextFormatCode then
      .returned (Value.string src, none)
    else if format = fc.BinaryFormatCode then
      let scanner := sc.New ci src
      let values := List.replicate (sc.FieldCount scanner) Value.nil
      DecodeValue.loop fc sc ci fuel scanner 0 values
    else
      .returned (Value.nil, some (Error.unknownFormatCode format))

end RecordCodec

/-! ## Fixtures for concrete runs -/

/-- The format codes of the PostgreSQL wire protocol: text is 0, binary is 1. -/
def pgFormatCodes : FormatCodes where
  TextFormatCode := 0
  BinaryFormatCode := 1
  distinct := by decide

/-- A nested strategy decoding a 4-byte big-endian signed integer into a generic value
cell; nil bytes decode to the nil value, other lengths are an error. -/
def int32Plan : Option Bytes → Value × Option Error
  | none => (Value.nil, none)
  | some [b0, b1, b2, b3] => (Value.int32 (toInt32 (be32 b0 b1 b2 b3)), none)
  | some _ => (Value.nil, some (Error.other 0))

/-- A nested strategy decoding a 4-byte big-endian signed integer into cell `d` of a
sink whose state is a list of cells. -/
def int32CellPlan : ScanPlan (List Value) Nat where
  Scan := fun src d w =>
    match int32Plan src with
    | (v, none) => (w.set d v, none)
    | (_, some err) => (w, some err)

/-- A registry that knows only the type identifier `x`, as a 32-bit integer. -/
def int32Registry (x : Nat) : ConnInfo (List Value) Nat where
  PlanScanValue := fun oid _ => if oid = x then some int32Plan else none
  PlanScan := fun oid _ _ => if oid = x then some int32CellPlan else none

/-- A sink over a list of cells: the destination of field `i` is cell `i` when there is
one, and `ScanNull` clears every cell. -/
def cellSink : CompositeIndexScanner (List Value) Nat where
  ScanNull := fun w => (w.map (fun _ => Value.nil), none)
  ScanIndex := fun i w => (w, if i < w.length then some i else none)

/-- A sink over a list of cells that declines every index. -/
def decliningSink : CompositeIndexScanner (List Value) Nat where
  ScanNull := fun w => (w.map (fun _ => Value.nil), none)
  ScanIndex := fun _ w => (w, none)

/-- State of a scanner that replays a given list of fields: the declared field count,
the fields still to be yielded, the field yielded last and the error reported by
`Err`. -/
structure ReplayScanner where
  declared : Nat
  pending : List Field
  current : Field
  err : Option Error

/-- A scanner that declares `declared` fields, yields the fields of `fields` in order
whatever the buffer, and reports `err` from `Err`. -/
def replayScanner (W D : Type) (declared : Nat) (fields : List Field)
    (err : Option Error) : ScannerOps ReplayScanner W D where
  New := fun _ _ =>
    { declared := declared, pending := fields, current := ⟨0, none⟩, err := err }
  Next := fun s =>
    match s.pending with
    | [] => (false, s)
    | f :: fs => (true, { s with pending := fs, current := f })
  OID := fun s => s.current.oid
  Bytes := fun s => s.current.bytes
  Err := fun s => s.err
  FieldCount := fun s => s.declared

/-- The record `[fieldCount=2, (typeId=x, len=4, bytes=0x00000001), (typeId=y, len=-1)]`
in the binary layout. -/
def nullFieldRecord (x y : Nat) : Bytes :=
  [0, 0, 0, 2] ++ putBe32 x ++ [0, 0, 0, 4] ++ [0, 0, 0, 1] ++ putBe32 y
    ++ [255, 255, 255, 255]

/-! ## Reference semantics over the list of yielded fields -/

/-- The registry's strategy for one field run standalone into a fresh generic value
cell: the content of the cell and the error. A missing strategy is the error of
line 96. -/
def decodeField {W D : Type} (fc : FormatCodes) (ci : ConnInfo W D) (f : Field) :
    Value × Option Error :=
  match ci.PlanScanValue f.oid fc.BinaryFormatCode with
  | none => (Value.nil, some (Error.unableToScanOID f.oid))
  | some fieldPlan => fieldPlan f.bytes

/-- Generic decoding of a list of fields in order into `values`, starting at index `i`;
`final` is the error the scanner reports once the fields are exhausted. -/
def decodeFields {W D : Type} (fc : FormatCodes) (ci : ConnInfo W D)
    (final : Option Error) : List Field → Nat → List Value → Outcome (Value × Option Error)
  | [], _, values =>
    match final with
    | some err => .returned (Value.nil, some err)
    | none => .returned (Value.slice values, none)
  | f :: fs, i, values =>
    match decodeField fc ci f with
    | (_, some err) => .returned (Value.nil, some err)
    | (v, none) =>
      if i < values.length then decodeFields fc ci final fs (i + 1) (values.set i v)
      else .panicked

/-- What the loop of `Scan` does for field `f` at index `i` in sink state `w`: the sink
state afterwards and the error, if the field fails. -/
def scanField {W D : Type} (fc : FormatCodes) (ci : ConnInfo W D)
    (targetScanner : CompositeIndexScanner W D) (f : Field) (i : Nat) (w : W) :
    W × Option Error :=
  match targetScanner.ScanIndex i w with
  | (w, none) => (w, none)
  | (w, some fieldTarget) =>
    match ci.PlanScan f.oid fc.BinaryFormatCode fieldTarget with
    | none => (w, some (Error.unableToScanOID f.oid))
    | some fieldPlan => fieldPlan.Scan f.bytes fieldTarget w

/-- Decoding of a list of fields in order into a sink, starting at index `i` in sink
state `w`, up to and including the first field that fails. -/
def scanFields {W D : Type} (fc : FormatCodes) (ci : ConnInfo W D)
    (targetScanner : CompositeIndexScanner W D) : List Field → Nat → W → W × Option Error
  | [], _, w => (w, none)
  | f :: fs, i, w =>
    match scanField fc ci targetScanner f i w with
    | (w, some err) => (w, some err)
    | (w, none) => scanFields fc ci targetScanner fs (i + 1) w

/-! ## Call traces -/

/-- A call that `Scan` makes on a collaborator: `targetScanner.ScanIndex(i)`, with the
destination it returned, or `fieldPlan.Scan(src, dest)` on the plan that
`PlanScan(oid, format, fieldTarget)` resolved. -/
inductive Call (D : Type) where
  | scanIndex (i : Nat) (fieldTarget : Option D)
  | planScan (oid : Nat) (format : Int) (fieldTarget : D) (src : Option Bytes) (dest : D)

/-- The sink `t` with a log of the calls of `ScanIndex` added to its state. -/
def CompositeIndexScanner.logged {W D : Type} (t : CompositeIndexScanner W D) :
    CompositeIndexScanner (W × List (Call D)) D where
  ScanNull := fun s => (((t.ScanNull s.1).1, s.2), (t.ScanNull s.1).2)
  ScanIndex := fun i s =>
    (((t.ScanIndex i s.1).1, s.2 ++ [Call.scanIndex i (t.ScanIndex i s.1).2]),
      (t.ScanIndex i s.1).2)

/-- The registry `ci` with a log of the runs of the plans it resolves for sink
destinations added to the state; every plan behaves as before on the state proper. -/
def ConnInfo.logged {W D : Type} (ci : ConnInfo W D) : ConnInfo (W × List (Call D)) D where
  PlanScanValue := ci.PlanScanValue
  PlanScan := fun oid format fieldTarget =>
    match ci.PlanScan oid format fieldTarget with
    | none => none
    | some fieldPlan =>
      some { Scan := fun src dest s =>
        (((fieldPlan.Scan src dest s.1).1,
            s.2 ++ [Call.planScan oid format fieldTarget src dest]),
          (fieldPlan.Scan src dest s.1).2) }

/-- The calls expected for the fields `fs` from index `i` on, when the sink hands out
the destinations `ds`: for each field one `ScanIndex`, followed, when the destination is
present, by one run of the plan resolved for the field's type identifier, the binary
format and that destination, on the field's bytes and that destination. -/
def expectedCalls {D : Type} (fc : FormatCodes) :
    List Field → List (Option D) → Nat → List (Call D)
  | f :: fs, d :: ds, i =>
    Call.scanIndex i d ::
      ((match d with
        | none => []
        | some t => [Call.planScan f.oid fc.BinaryFormatCode t f.bytes t])
        ++ expectedCalls fc fs ds (i + 1))
  | _, _, _ => []

/-! ## The loops follow the reference semantics -/

theorem DecodeValue_loop_eq {σ W D : Type} (fc : FormatCodes) (sc : ScannerOps σ W D)
    (ci : ConnInfo W D) :
    ∀ (fuel : Nat) (scanner : σ) (i : Nat) (values : List Value) (fs : List Field)
      (final : σ), drain sc fuel scanner = some (fs, final) →
      RecordCodec.DecodeValue.loop fc sc ci fuel scanner i values
        = decodeFields fc ci (sc.Err final) fs i values := by
  intro fuel
  induction fuel with
  | zero => intro scanner i values fs final h; simp [drain] at h
  | succ fuel ih =>
    intro scanner i values fs final h
    unfold drain at h
    unfold RecordCodec.DecodeValue.loop
    rcases hn : sc.Next scanner with ⟨ok, scanner'⟩
    rw [hn] at h
    cases ok with
    | false =>
      simp only [Option.some.injEq, Prod.mk.injEq] at h
      obtain ⟨rfl, rfl⟩ := h
      simp only [decodeFields]
    | true =>
      simp only at h
      rcases hd : drain sc fuel scanner' with _ | ⟨fs', final'⟩
      · rw [hd] at h; simp at h
      · rw [hd] at h
        simp only [Option.some.injEq, Prod.mk.injEq] at h
        obtain ⟨rfl, rfl⟩ := h
        simp only [decodeFields, decodeField]
        cases hp : ci.PlanScanValue (sc.OID scanner') fc.BinaryFormatCode with
        | none => rfl
        | some fieldPlan =>
          simp only
          rcases hs : fieldPlan (sc.Bytes scanner') with ⟨v, _ | err⟩
          · simp only
            split
            · exact ih scanner' (i + 1) _ fs' final' hd
            · rfl
          · rfl

theorem Scan_loop_eq {σ W D : Type} (fc : FormatCodes) (sc : ScannerOps σ W D)
    (plan : scanPlanBinaryRecordToCompositeIndexScanner W D)
    (targetScanner : CompositeIndexScanner W D) :
    ∀ (fuel : Nat) (scanner : σ) (i : Nat) (w : W) (fs : List Field) (final : σ),
      drain sc fuel scanner = some (fs, final) →
      scanPlanBinaryRecordToCompositeIndexScanner.loop fc sc plan targetScanner fuel
          scanner i w
        = match scanFields fc plan.ci targetScanner fs i w with
          | (w, some err) => .returned (w, some err)
          | (w, none) => .returned (w, sc.Err final) := by
  intro fuel
  induction fuel with
  | zero => intro scanner i w fs final h; simp [drain] at h
  | succ fuel ih =>
    intro scanner i w fs final h
    unfold drain at h
    unfold scanPlanBinaryRecordToCompositeIndexScanner.loop
    rcases hn : sc.Next scanner with ⟨ok, scanner'⟩
    rw [hn] at h
    cases ok with
    | false =>
      simp only [Option.some.injEq, Prod.mk.injEq] at h
      obtain ⟨rfl, rfl⟩ := h
      simp only [scanFields]
    | true =>
      simp only at h
      rcases hd : drain sc fuel scanner' with _ | ⟨fs', final'⟩
      · rw [hd] at h; simp at h
      · rw [hd] at h
        simp only [Option.some.injEq, Prod.mk.injEq] at h
        obtain ⟨rfl, rfl⟩ := h
        simp only [scanFields, scanField]
        rcases hi : targetScanner.ScanIndex i w with ⟨w1, _ | fieldTarget⟩
        · simp only
          exact ih scanner' (i + 1) w1 fs' final' hd
        · simp only
          cases hp : plan.ci.PlanScan (sc.OID scanner') fc.BinaryFormatCode fieldTarget with
          | none => rfl
          | some fieldPlan =>
            simp only
            rcases hs : fieldPlan.Scan (sc.Bytes scanner') fieldTarget w1 with ⟨w2, _ | err⟩
            · simp only
              exact ih scanner' (i + 1) w2 fs' final' hd
            · rfl


/-! ## Properties of the reference semantics -/

theorem decodeFields_ok {W D : Type} (fc : FormatCodes) (ci : ConnInfo W D) :
    ∀ (fs : List Field) (i : Nat) (values : List Value),
      (∀ f ∈ fs, (decodeField fc ci f).2 = none) →
      i + fs.length ≤ values.length →
      decodeFields fc ci none fs i values
        = .returned (Value.slice (values.take i ++ fs.map (fun f => (decodeField fc ci f).1)
            ++ values.drop (i + fs.length)), none) := by
  intro fs
  induction fs with
  | nil => intro i values _ _; simp [decodeFields]
  | cons f fs ih =>
    intro i values hok hlen
    simp only [List.length_cons] at hlen
    have hf : (decodeField fc ci f).2 = none := hok f (List.mem_cons_self _ _)
    have hi : i < values.length := by omega
    rcases hd : decodeField fc ci f with ⟨v, e⟩
    rw [hd] at hf
    simp only at hf
    subst hf
    simp only [decodeFields, hd, if_pos hi]
    rw [ih (i + 1) (values.set i v) (fun g hg => hok g (List.mem_cons_of_mem _ hg))
      (by simp; omega)]
    have hset : values.set i v = values.take i ++ v :: values.drop (i + 1) := by
      rw [List.set_eq_take_append_cons_drop, if_pos hi]
    have htl : (values.take i).length = i := by simp; omega
    congr 2
    rw [hset]
    simp only [List.map_cons, List.length_cons]
    rw [List.take_append_eq_append_take, List.drop_append_eq_append_drop]
    simp [htl]
    have h1 : i + 1 + fs.length - i = fs.length + 1 := by omega
    have h2 : i + (fs.length + 1) = i + 1 + fs.length := by omega
    simp [h1, h2, List.take_of_length_le, hd]
    omega


theorem decodeFields_final_err {W D : Type} (fc : FormatCodes) (ci : ConnInfo W D)
    (err : Error) :
    ∀ (fs : List Field) (i : Nat) (values : List Value),
      (∀ f ∈ fs, (decodeField fc ci f).2 = none) →
      i + fs.length ≤ values.length →
      decodeFields fc ci (some err) fs i values = .returned (Value.nil, some err) := by
  intro fs
  induction fs with
  | nil => intro i values _ _; simp [decodeFields]
  | cons f fs ih =>
    intro i values hok hlen
    simp only [List.length_cons] at hlen
    have hf : (decodeField fc ci f).2 = none := hok f (List.mem_cons_self _ _)
    have hi : i < values.length := by omega
    rcases hd : decodeField fc ci f with ⟨v, e⟩
    rw [hd] at hf
    simp only at hf
    subst hf
    simp only [decodeFields, hd, if_pos hi]
    exact ih (i + 1) (values.set i v) (fun g hg => hok g (List.mem_cons_of_mem _ hg))
      (by simp; omega)

theorem decodeFields_fail {W D : Type} (fc : FormatCodes) (ci : ConnInfo W D)
    (final : Option Error) (f : Field) (post : List Field) (err : Error)
    (hf : (decodeField fc ci f).2 = some err) :
    ∀ (pre : List Field) (i : Nat) (values : List Value),
      (∀ g ∈ pre, (decodeField fc ci g).2 = none) →
      i + pre.length ≤ values.length →
      decodeFields fc ci final (pre ++ f :: post) i values
        = .returned (Value.nil, some err) := by
  intro pre
  induction pre with
  | nil =>
    intro i values _ _
    rcases hd : decodeField fc ci f with ⟨v, e⟩
    rw [hd] at hf
    simp only at hf
    subst hf
    simp only [List.nil_append, decodeFields, hd]
  | cons g pre ih =>
    intro i values hok hlen
    simp only [List.length_cons] at hlen
    have hg : (decodeField fc ci g).2 = none := hok g (List.mem_cons_self _ _)
    have hi : i < values.length := by omega
    rcases hd : decodeField fc ci g with ⟨v, e⟩
    rw [hd] at hg
    simp only at hg
    subst hg
    simp only [List.cons_append, decodeFields, hd, if_pos hi]
    exact ih (i + 1) (values.set i v) (fun h hh => hok h (List.mem_cons_of_mem _ hh))
      (by simp; omega)

theorem decodeField_of_plan {W D : Type} (fc : FormatCodes) (ci : ConnInfo W D)
    (f : Field) (p : Option Bytes → Value × Option Error)
    (h : ci.PlanScanValue f.oid fc.BinaryFormatCode = some p) :
    decodeField fc ci f = p f.bytes := by
  simp [decodeField, h]

theorem decodeField_of_no_plan {W D : Type} (fc : FormatCodes) (ci : ConnInfo W D)
    (f : Field) (h : ci.PlanScanValue f.oid fc.BinaryFormatCode = none) :
    decodeField fc ci f = (Value.nil, some (Error.unableToScanOID f.oid)) := by
  simp [decodeField, h]

theorem decodeField_ok_of_plans {W D : Type} (fc : FormatCodes) (ci : ConnInfo W D)
    (fs : List Field)
    (h : ∀ f ∈ fs, ∃ p, ci.PlanScanValue f.oid fc.BinaryFormatCode = some p
      ∧ (p f.bytes).2 = none) :
    ∀ f ∈ fs, (decodeField fc ci f).2 = none := by
  intro f hf
  obtain ⟨p, hp, hok⟩ := h f hf
  rw [decodeField_of_plan fc ci f p hp]
  exact hok

theorem scanFields_append {W D : Type} (fc : FormatCodes) (ci : ConnInfo W D)
    (targetScanner : CompositeIndexScanner W D) (post : List Field) :
    ∀ (pre : List Field) (i : Nat) (w : W),
      scanFields fc ci targetScanner (pre ++ post) i w
        = match scanFields fc ci targetScanner pre i w with
          | (w, some err) => (w, some err)
          | (w, none) => scanFields fc ci targetScanner post (i + pre.length) w := by
  intro pre
  induction pre with
  | nil => intro i w; simp [scanFields]
  | cons g pre ih =>
    intro i w
    simp only [List.cons_append, scanFields, List.length_cons]
    rcases hs : scanField fc ci targetScanner g i w with ⟨w1, _ | err⟩
    · simp only
      have h := ih (i + 1) w1
      rw [show i + (pre.length + 1) = i + 1 + pre.length by omega]
      exact h
    · rfl

/-! ## The spec-modelled scanner always reaches its end -/

theorem CompositeBinaryScanner.Next_true {s t : CompositeBinaryScanner}
    (h : s.Next = (true, t)) :
    t.rest.length + 8 ≤ s.rest.length ∧ t.produced = s.produced + 1
      ∧ t.fieldCount = s.fieldCount ∧ s.produced ≠ s.fieldCount ∧ t.err = none := by
  unfold CompositeBinaryScanner.Next at h
  split at h
  · simp at h
  · rename_i herr
    split at h
    · simp at h
    · rename_i hprod
      have herr' : s.err = none := by
        cases he : s.err with
        | none => rfl
        | some e => simp [he] at herr
      split at h
      · rename_i o0 o1 o2 o3 l0 l1 l2 l3 rest hrest
        simp only at h
        split at h
        · simp only [Prod.mk.injEq, true_and] at h
          subst h
          simp [hrest, hprod, herr']
        · split at h
          · simp at h
          · split at h
            · simp at h
            · simp only [Prod.mk.injEq, true_and] at h
              subst h
              simp [hrest, hprod, herr']
      · simp at h

theorem CompositeBinaryScanner.Next_false {s t : CompositeBinaryScanner}
    (h : s.Next = (false, t)) :
    t.fieldCount = s.fieldCount ∧ t.produced = s.produced
      ∧ (t.err = none → s.produced = s.fieldCount) := by
  unfold CompositeBinaryScanner.Next at h
  split at h
  · rename_i herr
    simp only [Prod.mk.injEq, true_and] at h
    subst h
    refine ⟨rfl, rfl, fun hn => ?_⟩
    simp [hn] at herr
  · split at h
    · rename_i hprod
      simp only [Prod.mk.injEq, true_and] at h
      subst h
      exact ⟨rfl, rfl, fun _ => hprod⟩
    · split at h
      · simp only at h
        split at h
        · simp at h
        · split at h
          · simp only [Prod.mk.injEq, true_and] at h
            subst h
            simp
          · split at h
            · simp only [Prod.mk.injEq, true_and] at h
              subst h
              simp
            · simp at h
      · simp only [Prod.mk.injEq, true_and] at h
        subst h
        simp

/-- The spec-modelled scanner reaches its end within `rest.length + 1` calls of `Next`;
it yields at most `FieldCount` fields, and exactly that many when it ends without a
structural error. -/
theorem drain_compositeBinaryScanner (W D : Type) :
    ∀ (fuel : Nat) (s : CompositeBinaryScanner), s.rest.length < fuel →
      ∃ fs final, drain (compositeBinaryScanner W D) fuel s = some (fs, final)
        ∧ final.fieldCount = s.fieldCount
        ∧ final.produced = s.produced + fs.length
        ∧ (s.produced ≤ s.fieldCount → final.produced ≤ final.fieldCount)
        ∧ (final.err = none → final.produced = final.fieldCount) := by
  intro fuel
  induction fuel with
  | zero => intro s h; omega
  | succ fuel ih =>
    intro s hlen
    unfold drain
    rcases hn : (compositeBinaryScanner W D).Next s with ⟨ok, t⟩
    have hn' : s.Next = (ok, t) := hn
    cases ok with
    | false =>
      obtain ⟨h1, h2, h3⟩ := CompositeBinaryScanner.Next_false hn'
      refine ⟨[], t, rfl, h1, by simpa using h2, ?_, ?_⟩
      · intro h; omega
      · intro h; have := h3 h; omega
    | true =>
      obtain ⟨h1, h2, h3, h4, _⟩ := CompositeBinaryScanner.Next_true hn'
      obtain ⟨fs, final, hd, g1, g2, g3, g4⟩ := ih t (by omega)
      refine ⟨⟨(compositeBinaryScanner W D).OID t, (compositeBinaryScanner W D).Bytes t⟩ :: fs,
        final, ?_, ?_, ?_, ?_, g4⟩
      · simp only [hd]
      · omega
      · simp only [List.length_cons]; omega
      · intro h; exact g3 (by omega)


/-! ## Every list of fields is the yield of some scanner -/

theorem drain_replayScanner_state (W D : Type) (declared : Nat) (fields : List Field)
    (err : Option Error) :
    ∀ (pending : List Field) (current : Field) (fuel : Nat), pending.length < fuel →
      ∃ final, drain (replayScanner W D declared fields err) fuel
          { declared := declared, pending := pending, current := current, err := err }
        = some (pending, final) ∧ final.err = err ∧ final.declared = declared := by
  intro pending
  induction pending with
  | nil =>
    intro current fuel h
    obtain ⟨n, rfl⟩ : ∃ n, fuel = n + 1 := ⟨fuel - 1, by simp at h; omega⟩
    exact ⟨_, rfl, rfl, rfl⟩
  | cons f fs ih =>
    intro current fuel h
    obtain ⟨n, rfl⟩ : ∃ n, fuel = n + 1 := ⟨fuel - 1, by omega⟩
    obtain ⟨final, hd, he, hc⟩ := ih f n (by simp at h; omega)
    refine ⟨final, ?_, he, hc⟩
    simp only [drain, replayScanner]
    simp only [replayScanner] at hd
    rw [hd]

theorem drain_replayScanner {W D : Type} (ci : ConnInfo W D) (src : Bytes)
    (declared : Nat) (fields : List Field) (err : Option Error) (fuel : Nat)
    (h : fields.length < fuel) :
    ∃ final, drain (replayScanner W D declared fields err) fuel
        ((replayScanner W D declared fields err).New ci src) = some (fields, final)
      ∧ (replayScanner W D declared fields err).Err final = err := by
  obtain ⟨final, hd, he, _⟩ :=
    drain_replayScanner_state W D declared fields err fields ⟨0, none⟩ fuel h
  exact ⟨final, hd, he⟩

/-! ## Concrete records -/

theorem be32_putBe32 (n : Nat) (h : n < 2 ^ 32) :
    be32 (Fin.ofNat (n / 2 ^ 24)) (Fin.ofNat (n / 2 ^ 16)) (Fin.ofNat (n / 2 ^ 8))
      (Fin.ofNat n) = n := by
  simp only [be32, Fin.ofNat]
  omega

theorem drain_nullFieldRecord {W D : Type} (ci : ConnInfo W D) (fuel x y : Nat)
    (hx : x < 2 ^ 32) (hy : y < 2 ^ 32) :
    ∃ final,
      drain (compositeBinaryScanner W D) (fuel + 3)
          ((compositeBinaryScanner W D).New ci (nullFieldRecord x y))
        = some ([⟨x, some [0, 0, 0, 1]⟩, ⟨y, none⟩], final)
      ∧ (compositeBinaryScanner W D).Err final = none := by
  have e1 : toInt32 (be32 0 0 0 4) = 4 := by decide
  have e2 : toInt32 (be32 255 255 255 255) = -1 := by decide
  have e3 : be32 0 0 0 2 = 2 := by decide
  refine ⟨{ rest := [], fieldCount := 2, produced := 2, fieldOID := y, fieldBytes := none,
            err := none }, ?_, rfl⟩
  simp [drain, compositeBinaryScanner, NewCompositeBinaryScanner, nullFieldRecord, putBe32,
    CompositeBinaryScanner.Next, e1, e2, e3]
  exact ⟨be32_putBe32 x hx, be32_putBe32 y hy⟩


/-! ## Logged runs -/

theorem scanFields_logged {W D : Type} (fc : FormatCodes) (ci : ConnInfo W D)
    (targetScanner : CompositeIndexScanner W D) :
    ∀ (fs : List Field) (i : Nat) (w : W) (log : List (Call D)),
      (scanFields fc ci.logged targetScanner.logged fs i (w, log)).1.1
          = (scanFields fc ci targetScanner fs i w).1
      ∧ (scanFields fc ci.logged targetScanner.logged fs i (w, log)).2
          = (scanFields fc ci targetScanner fs i w).2
      ∧ ((scanFields fc ci targetScanner fs i w).2 = none →
          ∃ ds : List (Option D), ds.length = fs.length
            ∧ (scanFields fc ci.logged targetScanner.logged fs i (w, log)).1.2
                = log ++ expectedCalls fc fs ds i) := by
  intro fs
  induction fs with
  | nil =>
    intro i w log
    exact ⟨rfl, rfl, fun _ => ⟨[], rfl, by simp [scanFields, expectedCalls]⟩⟩
  | cons f fs ih =>
    intro i w log
    rcases hs : targetScanner.ScanIndex i w with ⟨w1, _ | d⟩
    · obtain ⟨h1, h2, h3⟩ := ih (i + 1) w1 (log ++ [Call.scanIndex i none])
      simp only [scanFields, scanField, CompositeIndexScanner.logged, hs]
      refine ⟨h1, h2, fun hok => ?_⟩
      obtain ⟨ds, hlen, hlog⟩ := h3 hok
      refine ⟨none :: ds, by simp [hlen], hlog.trans ?_⟩
      simp [expectedCalls]
    · cases hp : ci.PlanScan f.oid fc.BinaryFormatCode d with
      | none =>
        simp [scanFields, scanField, CompositeIndexScanner.logged, ConnInfo.logged, hs, hp]
      | some fieldPlan =>
        rcases hr : fieldPlan.Scan f.bytes d w1 with ⟨w2, _ | err⟩
        · obtain ⟨h1, h2, h3⟩ := ih (i + 1) w2
            (log ++ [Call.scanIndex i (some d)]
              ++ [Call.planScan f.oid fc.BinaryFormatCode d f.bytes d])
          simp only [scanFields, scanField, CompositeIndexScanner.logged, ConnInfo.logged,
            hs, hp, hr]
          refine ⟨h1, h2, fun hok => ?_⟩
          obtain ⟨ds, hlen, hlog⟩ := h3 hok
          refine ⟨some d :: ds, by simp [hlen], hlog.trans ?_⟩
          simp [expectedCalls]
        · simp [scanFields, scanField, CompositeIndexScanner.logged, ConnInfo.logged, hs,
            hp, hr]

theorem expectedCalls_indices {D : Type} (fc : FormatCodes) :
    ∀ (fs : List Field) (ds : List (Option D)) (i : Nat), ds.length = fs.length →
      (expectedCalls fc fs ds i).filterMap
          (fun c => match c with
            | Call.scanIndex j _ => some j
            | Call.planScan _ _ _ _ _ => none)
        = List.range' i fs.length := by
  intro fs
  induction fs with
  | nil => intro ds i _; simp [expectedCalls]
  | cons f fs ih =>
    intro ds i hlen
    cases ds with
    | nil => simp at hlen
    | cons d ds =>
      simp only [List.length_cons, Nat.add_right_cancel_iff] at hlen
      cases d with
      | none =>
        simp [expectedCalls, List.range'_succ, ih ds (i + 1) hlen]
      | some t =>
        simp [expectedCalls, List.range'_succ, ih ds (i + 1) hlen]

/-! ## The store into the sequence -/

theorem decodeFields_no_panic {W D : Type} (fc : FormatCodes) (ci : ConnInfo W D)
    (final : Option Error) :
    ∀ (fs : List Field) (i : Nat) (values : List Value),
      i + fs.length ≤ values.length →
      decodeFields fc ci final fs i values ≠ .panicked := by
  intro fs
  induction fs with
  | nil =>
    intro i values _
    cases final <;> simp [decodeFields]
  | cons f fs ih =>
    intro i values hlen
    simp only [List.length_cons] at hlen
    have hi : i < values.length := by omega
    rcases hd : decodeField fc ci f with ⟨v, _ | err⟩
    · simp only [decodeFields, hd, if_pos hi]
      exact ih (i + 1) (values.set i v) (by simp; omega)
    · simp [decodeFields, hd]

theorem decodeFields_panic {W D : Type} (fc : FormatCodes) (ci : ConnInfo W D)
    (final : Option Error) (f : Field) (post : List Field)
    (hf : (decodeField fc ci f).2 = none) :
    ∀ (pre : List Field) (i : Nat) (values : List Value),
      (∀ g ∈ pre, (decodeField fc ci g).2 = none) →
      i + pre.length = values.length →
      decodeFields fc ci final (pre ++ f :: post) i values = .panicked := by
  intro pre
  induction pre with
  | nil =>
    intro i values _ hlen
    simp only [List.length_nil, Nat.add_zero] at hlen
    rcases hd : decodeField fc ci f with ⟨v, e⟩
    rw [hd] at hf
    simp only at hf
    subst hf
    simp [decodeFields, hd, hlen]
  | cons g pre ih =>
    intro i values hok hlen
    simp only [List.length_cons] at hlen
    have hg : (decodeField fc ci g).2 = none := hok g (List.mem_cons_self _ _)
    have hi : i < values.length := by omega
    rcases hd : decodeField fc ci g with ⟨v, e⟩
    rw [hd] at hg
    simp only at hg
    subst hg
    simp only [List.cons_append, decodeFields, hd, if_pos hi]
    exact ih (i + 1) (values.set i v) (fun h hh => hok h (List.mem_cons_of_mem _ hh))
      (by simp; omega)

theorem NewCompositeBinaryScanner_rest_length (src : Bytes) :
    (NewCompositeBinaryScanner src).rest.length ≤ src.length
      ∧ (NewCompositeBinaryScanner src).produced = 0 := by
  unfold NewCompositeBinaryScanner
  split
  · refine ⟨?_, rfl⟩
    simp only [List.length_cons]
    omega
  · simp

theorem decodeFields_returns {W D : Type} (fc : FormatCodes) (ci : ConnInfo W D)
    (final : Option Error) :
    ∀ (fs : List Field) (i : Nat) (values : List Value),
      i + fs.length ≤ values.length →
      ∃ r, decodeFields fc ci final fs i values = .returned r := by
  intro fs
  induction fs with
  | nil =>
    intro i values _
    cases final with
    | none => exact ⟨_, rfl⟩
    | some err => exact ⟨_, rfl⟩
  | cons f fs ih =>
    intro i values hlen
    simp only [List.length_cons] at hlen
    have hi : i < values.length := by omega
    rcases hd : decodeField fc ci f with ⟨v, _ | err⟩
    · simp only [decodeFields, hd, if_pos hi]
      exact ih (i + 1) (values.set i v) (by simp; omega)
    · exact ⟨(Value.nil, some err), by simp only [decodeFields, hd]⟩

/-- With the spec-modelled scanner, `DecodeValue` returns for every buffer, format and
registry once the fuel exceeds the length of the buffer: it neither runs out of fuel
nor panics. -/
theorem DecodeValue_compositeBinaryScanner_returns {W D : Type} (fc : FormatCodes)
    (fuel : Nat) (ci : ConnInfo W D) (oid : Nat) (format : Int) (src : Bytes)
    (hfuel : src.length < fuel) :
    ∃ r, RecordCodec.DecodeValue fc (compositeBinaryScanner W D) fuel ci oid format
      (some src) = .returned r := by
  simp only [RecordCodec.DecodeValue]
  split
  · exact ⟨_, rfl⟩
  · split
    · obtain ⟨hrest, hprod⟩ := NewCompositeBinaryScanner_rest_length src
      obtain ⟨fs, final, hd, hcount, hlen, hle, _⟩ :=
        drain_compositeBinaryScanner W D fuel (NewCompositeBinaryScanner src) (by omega)
      have hd' : drain (compositeBinaryScanner W D) fuel
          ((compositeBinaryScanner W D).New ci src) = some (fs, final) := hd
      rw [DecodeValue_loop_eq fc _ ci fuel _ 0 _ fs final hd']
      apply decodeFields_returns
      have h1 := hle (by omega)
      have h2 : (compositeBinaryScanner W D).FieldCount
          ((compositeBinaryScanner W D).New ci src)
          = (NewCompositeBinaryScanner src).fieldCount := rfl
      simp only [List.length_replicate, h2]
      omega
    · exact ⟨_, rfl⟩

/-! ## The claims -/

/-- Claim C1, as amended: for every non-nil `src`, whatever its contents, and every
registry, `DecodeValue` called with the text format code returns `string(src)` together
with a nil error; it does not fail. -/
theorem C1_DecodeValue_text_returns_string {σ W D : Type} (fc : FormatCodes)
    (sc : ScannerOps σ W D) (fuel : Nat) (ci : ConnInfo W D) (oid : Nat) (src : Bytes) :
    RecordCodec.DecodeValue fc sc fuel ci oid fc.TextFormatCode (some src)
      = .returned (Value.string src, none) := by
  simp [RecordCodec.DecodeValue]

/-- Claim C1 fails as stated: for the text `(1)` and the text format code, `DecodeValue`
returns the string with a nil error, so it does not return a nil value with an error. -/
theorem C1_counterexample :
    RecordCodec.DecodeValue pgFormatCodes (compositeBinaryScanner (List Value) Nat) 1
        (int32Registry 23) 2249 pgFormatCodes.TextFormatCode (some [40, 49, 41])
      = .returned (Value.string [40, 49, 41], none)
    ∧ ¬ ∃ err, RecordCodec.DecodeValue pgFormatCodes
          (compositeBinaryScanner (List Value) Nat) 1 (int32Registry 23) 2249
          pgFormatCodes.TextFormatCode (some [40, 49, 41])
        = .returned (Value.nil, some err) := by
  refine ⟨rfl, ?_⟩
  rintro ⟨err, h⟩
  simp [RecordCodec.DecodeValue] at h

/-- Claim C2, as amended: in generic decoding a null field is looked up in the registry
like any other field and its strategy is run on nil bytes. In general, when the scanner
yields `pre`, then a null field of type `y`, then `post`, and the fields of `pre` decode
and fit the declared field count: without a strategy for `y`, `DecodeValue` fails with
"unable to scan OID y" and a nil value; if the strategy for `y` fails on nil bytes, its
error is returned; and if the whole decode succeeds, the slot of the null field holds
what the strategy for `y` produced from nil bytes. In particular, for the record
`[fieldCount=2, (typeId=x, len=4, bytes=0x00000001), (typeId=y, len=-1)]` and a registry
whose strategy for `x` decodes the first field to `v1`: `DecodeValue` fails with
"unable to scan OID y" when the registry has no strategy for `y`, returns `[v1, v2]`
when the strategy for `y` turns nil bytes into `v2`, and returns the error of the
strategy for `y` when that strategy fails on nil bytes. -/
theorem C2_DecodeValue_null_field_is_looked_up {W D : Type} (fc : FormatCodes)
    (ci : ConnInfo W D) (oid : Nat) :
    (∀ (σ : Type) (sc : ScannerOps σ W D) (fuel : Nat) (src : Bytes) (pre : List Field)
        (y : Nat) (post : List Field) (final : σ),
      drain sc fuel (sc.New ci src) = some (pre ++ ⟨y, none⟩ :: post, final) →
      (∀ f ∈ pre, ∃ p, ci.PlanScanValue f.oid fc.BinaryFormatCode = some p
        ∧ (p f.bytes).2 = none) →
      pre.length ≤ sc.FieldCount (sc.New ci src) →
      (ci.PlanScanValue y fc.BinaryFormatCode = none →
        RecordCodec.DecodeValue fc sc fuel ci oid fc.BinaryFormatCode (some src)
          = .returned (Value.nil, some (Error.unableToScanOID y)))
      ∧ (∀ q v err, ci.PlanScanValue y fc.BinaryFormatCode = some q →
        q none = (v, some err) →
        RecordCodec.DecodeValue fc sc fuel ci oid fc.BinaryFormatCode (some src)
          = .returned (Value.nil, some err))
      ∧ (∀ q v, ci.PlanScanValue y fc.BinaryFormatCode = some q → q none = (v, none) →
        (∀ f ∈ post, ∃ p, ci.PlanScanValue f.oid fc.BinaryFormatCode = some p
          ∧ (p f.bytes).2 = none) →
        sc.Err final = none →
        (pre ++ ⟨y, none⟩ :: post).length = sc.FieldCount (sc.New ci src) →
        ∃ vs, RecordCodec.DecodeValue fc sc fuel ci oid fc.BinaryFormatCode (some src)
            = .returned (Value.slice vs, none)
          ∧ vs[pre.length]? = some v))
    ∧ (∀ (fuel x y : Nat) (p : Option Bytes → Value × Option Error) (v1 : Value),
      x < 2 ^ 32 → y < 2 ^ 32 →
      ci.PlanScanValue x fc.BinaryFormatCode = some p →
      p (some [0, 0, 0, 1]) = (v1, none) →
      (ci.PlanScanValue y fc.BinaryFormatCode = none →
        RecordCodec.DecodeValue fc (compositeBinaryScanner W D) (fuel + 3) ci oid
            fc.BinaryFormatCode (some (nullFieldRecord x y))
          = .returned (Value.nil, some (Error.unableToScanOID y)))
      ∧ (∀ q v2, ci.PlanScanValue y fc.BinaryFormatCode = some q → q none = (v2, none) →
        RecordCodec.DecodeValue fc (compositeBinaryScanner W D) (fuel + 3) ci oid
            fc.BinaryFormatCode (some (nullFieldRecord x y))
          = .returned (Value.slice [v1, v2], none))
      ∧ (∀ q v2 err, ci.PlanScanValue y fc.BinaryFormatCode = some q →
        q none = (v2, some err) →
        RecordCodec.DecodeValue fc (compositeBinaryScanner W D) (fuel + 3) ci oid
            fc.BinaryFormatCode (some (nullFieldRecord x y))
          = .returned (Value.nil, some err))) := by
  constructor
  · intro σ sc fuel src pre y post final hyield hpre hfit
    have hrun : RecordCodec.DecodeValue fc sc fuel ci oid fc.BinaryFormatCode (some src)
        = decodeFields fc ci (sc.Err final) (pre ++ ⟨y, none⟩ :: post) 0
            (List.replicate (sc.FieldCount (sc.New ci src)) Value.nil) := by
      simp only [RecordCodec.DecodeValue, if_neg fc.distinct.symm, if_true]
      rw [DecodeValue_loop_eq fc sc ci fuel _ 0 _ _ final hyield]
    have hpre' := decodeField_ok_of_plans fc ci pre hpre
    refine ⟨fun hq => ?_, fun q v err hq hv => ?_, fun q v hq hv hpost herr hcount => ?_⟩
    · rw [hrun]
      apply decodeFields_fail fc ci _ ⟨y, none⟩ post (Error.unableToScanOID y)
      · rw [decodeField_of_no_plan fc ci ⟨y, none⟩ hq]
      · exact hpre'
      · simpa using hfit
    · rw [hrun]
      apply decodeFields_fail fc ci _ ⟨y, none⟩ post err
      · rw [decodeField_of_plan fc ci ⟨y, none⟩ q hq, hv]
      · exact hpre'
      · simpa using hfit
    · have hy : decodeField fc ci ⟨y, none⟩ = (v, none) := by
        rw [decodeField_of_plan fc ci ⟨y, none⟩ q hq, hv]
      have hall : ∀ f ∈ pre ++ ⟨y, none⟩ :: post, (decodeField fc ci f).2 = none := by
        intro f hf
        rcases List.mem_append.1 hf with h | h
        · exact hpre' f h
        · rcases List.mem_cons.1 h with h | h
          · rw [h, hy]
          · exact decodeField_ok_of_plans fc ci post hpost f h
      refine ⟨(pre ++ ⟨y, none⟩ :: post).map (fun f => (decodeField fc ci f).1), ?_, ?_⟩
      · rw [hrun, herr, decodeFields_ok fc ci _ 0 _ hall (by simp [← hcount])]
        simp [← hcount]
      · rw [List.map_append, List.getElem?_append_right (by simp)]
        simp [hy]
  · intro fuel x y p v1 hx hy hp hv
    obtain ⟨final, hd, herr⟩ := drain_nullFieldRecord ci fuel x y hx hy
    have hcount : (compositeBinaryScanner W D).FieldCount
        ((compositeBinaryScanner W D).New ci (nullFieldRecord x y)) = 2 := by
      have e3 : be32 0 0 0 2 = 2 := by decide
      simp [compositeBinaryScanner, NewCompositeBinaryScanner, nullFieldRecord, e3]
    have hrun : RecordCodec.DecodeValue fc (compositeBinaryScanner W D) (fuel + 3) ci oid
        fc.BinaryFormatCode (some (nullFieldRecord x y))
        = decodeFields fc ci none [⟨x, some [0, 0, 0, 1]⟩, ⟨y, none⟩] 0
            [Value.nil, Value.nil] := by
      simp only [RecordCodec.DecodeValue, if_neg fc.distinct.symm, if_true]
      rw [DecodeValue_loop_eq fc _ ci _ _ _ _ _ final hd, herr, hcount]
      rfl
    rw [hrun]
    refine ⟨fun hq => ?_, fun q v2 hq hv2 => ?_, fun q v2 err hq hv2 => ?_⟩
    · simp [decodeFields, decodeField, hp, hv, hq]
    · simp [decodeFields, decodeField, hp, hv, hq, hv2]
    · simp [decodeFields, decodeField, hp, hv, hq, hv2]

/-- Claim C2, witness: the record
`[fieldCount=2, (typeId=23, len=4, bytes=0x00000001), (typeId=23, len=-1)]` and the
registry that maps 23 to the int32 decoder, which turns nil bytes into the nil value:
the null field is looked up and decoded, and the result is `[1, null]`. -/
theorem C2_witness :
    RecordCodec.DecodeValue pgFormatCodes (compositeBinaryScanner (List Value) Nat) 3
        (int32Registry 23) 2249 pgFormatCodes.BinaryFormatCode
        (some (nullFieldRecord 23 23))
      = .returned (Value.slice [Value.int32 1, Value.nil], none) :=
  ((C2_DecodeValue_null_field_is_looked_up pgFormatCodes (int32Registry 23) 2249).2
    0 23 23 int32Plan (Value.int32 1) (by decide) (by decide) rfl rfl).2.1
    int32Plan Value.nil rfl rfl

/-- Claim C2 fails as stated: for the record
`[fieldCount=2, (typeId=23, len=4, bytes=0x00000001), (typeId=25, len=-1)]` and the
registry that maps only 23, to the int32 decoder, `DecodeValue` does not return
`[1, null]`; it fails with "unable to scan OID 25" because the null field is looked up. -/
theorem C2_counterexample :
    RecordCodec.DecodeValue pgFormatCodes (compositeBinaryScanner (List Value) Nat) 3
        (int32Registry 23) 2249 pgFormatCodes.BinaryFormatCode
        (some [0, 0, 0, 2, 0, 0, 0, 23, 0, 0, 0, 4, 0, 0, 0, 1,
               0, 0, 0, 25, 255, 255, 255, 255])
      = .returned (Value.nil, some (Error.unableToScanOID 25))
    ∧ RecordCodec.DecodeValue pgFormatCodes (compositeBinaryScanner (List Value) Nat) 3
        (int32Registry 23) 2249 pgFormatCodes.BinaryFormatCode
        (some [0, 0, 0, 2, 0, 0, 0, 23, 0, 0, 0, 4, 0, 0, 0, 1,
               0, 0, 0, 25, 255, 255, 255, 255])
      ≠ .returned (Value.slice [Value.int32 1, Value.nil], none) := by
  have h : RecordCodec.DecodeValue pgFormatCodes (compositeBinaryScanner (List Value) Nat) 3
        (int32Registry 23) 2249 pgFormatCodes.BinaryFormatCode
        (some [0, 0, 0, 2, 0, 0, 0, 23, 0, 0, 0, 4, 0, 0, 0, 1,
               0, 0, 0, 25, 255, 255, 255, 255])
      = .returned (Value.nil, some (Error.unableToScanOID 25)) := by rfl
  refine ⟨h, ?_⟩
  rw [h]
  simp


/-- Claim C3, as amended: in the IndexedSink path a null field whose destination is
present is treated like any other field. When the scanner yields `pre`, then a null
field of type `y`, then `post`, the fields of `pre` succeed and the sink hands out
destination `d` for the null field, `Scan` asks the registry for a strategy for
`(y, binary, d)`: without one it fails with "unable to scan OID y"; with one it runs the
strategy on nil bytes and `d`, returns its error if it fails, and otherwise goes on with
the fields of `post` in the sink state the strategy left. -/
theorem C3_Scan_null_field_is_looked_up {σ W D : Type} (fc : FormatCodes)
    (sc : ScannerOps σ W D) (fuel : Nat)
    (plan : scanPlanBinaryRecordToCompositeIndexScanner W D) (src : Bytes)
    (targetScanner : CompositeIndexScanner W D) (w : W) (pre : List Field) (y : Nat)
    (post : List Field) (final : σ) (w1 w2 : W) (d : D)
    (hyield : drain sc fuel (sc.New plan.ci src) = some (pre ++ ⟨y, none⟩ :: post, final))
    (hpre : scanFields fc plan.ci targetScanner pre 0 w = (w1, none))
    (hdest : targetScanner.ScanIndex pre.length w1 = (w2, some d)) :
    scanPlanBinaryRecordToCompositeIndexScanner.Scan fc sc fuel plan (some src)
        (ScanTarget.indexScanner targetScanner) w
      = match plan.ci.PlanScan y fc.BinaryFormatCode d with
        | none => .returned (w2, some (Error.unableToScanOID y))
        | some fieldPlan =>
          match fieldPlan.Scan none d w2 with
          | (w3, some err) => .returned (w3, some err)
          | (w3, none) =>
            match scanFields fc plan.ci targetScanner post (pre.length + 1) w3 with
            | (w4, some err) => .returned (w4, some err)
            | (w4, none) => .returned (w4, sc.Err final) := by
  simp only [scanPlanBinaryRecordToCompositeIndexScanner.Scan]
  rw [Scan_loop_eq fc sc plan targetScanner fuel _ 0 w _ final hyield,
    scanFields_append, hpre]
  simp only [scanFields, scanField, zero_add, hdest]
  cases hp : plan.ci.PlanScan y fc.BinaryFormatCode d with
  | none => rfl
  | some fieldPlan =>
    simp only
    rcases hs : fieldPlan.Scan none d w2 with ⟨w3, _ | err⟩
    · rfl
    · rfl

/-- Claim C3, witness: a record with one null field of type 23, the registry that maps
23 to the int32 decoder and a sink with one cell holding 7. The strategy for 23 is run
on nil bytes and overwrites the cell with the nil value. -/
theorem C3_witness :
    scanPlanBinaryRecordToCompositeIndexScanner.Scan pgFormatCodes
        (compositeBinaryScanner (List Value) Nat) 2 ⟨int32Registry 23⟩
        (some [0, 0, 0, 1, 0, 0, 0, 23, 255, 255, 255, 255])
        (ScanTarget.indexScanner cellSink) [Value.int32 7]
      = .returned ([Value.nil], none) :=
  C3_Scan_null_field_is_looked_up pgFormatCodes (compositeBinaryScanner (List Value) Nat) 2
    ⟨int32Registry 23⟩ [0, 0, 0, 1, 0, 0, 0, 23, 255, 255, 255, 255] cellSink
    [Value.int32 7] [] 23 []
    { rest := [], fieldCount := 1, produced := 1, fieldOID := 23, fieldBytes := none,
      err := none }
    [Value.int32 7] [Value.int32 7] 0 rfl rfl rfl

/-- Claim C3 fails as stated: for a record with one null field of type 25, a sink that
has a destination for it and a registry without a strategy for 25, `Scan` asks the
registry and fails with "unable to scan OID 25"; it does not succeed. -/
theorem C3_counterexample :
    scanPlanBinaryRecordToCompositeIndexScanner.Scan pgFormatCodes
        (compositeBinaryScanner (List Value) Nat) 2 ⟨int32Registry 23⟩
        (some [0, 0, 0, 1, 0, 0, 0, 25, 255, 255, 255, 255])
        (ScanTarget.indexScanner cellSink) [Value.nil]
      = .returned ([Value.nil], some (Error.unableToScanOID 25))
    ∧ ¬ ∃ w, scanPlanBinaryRecordToCompositeIndexScanner.Scan pgFormatCodes
          (compositeBinaryScanner (List Value) Nat) 2 ⟨int32Registry 23⟩
          (some [0, 0, 0, 1, 0, 0, 0, 25, 255, 255, 255, 255])
          (ScanTarget.indexScanner cellSink) [Value.nil]
        = .returned (w, none) := by
  have h : scanPlanBinaryRecordToCompositeIndexScanner.Scan pgFormatCodes
        (compositeBinaryScanner (List Value) Nat) 2 ⟨int32Registry 23⟩
        (some [0, 0, 0, 1, 0, 0, 0, 25, 255, 255, 255, 255])
        (ScanTarget.indexScanner cellSink) [Value.nil]
      = .returned ([Value.nil], some (Error.unableToScanOID 25)) := by rfl
  refine ⟨h, ?_⟩
  rw [h]
  simp

/-- Claim C4: when the scanner, run on a buffer, yields the fields `fs` and ends without
a structural error, `fs.length` is the declared `FieldCount`, and the registry has a
strategy for the type identifier of every field that succeeds on the field's bytes, then
`DecodeValue` in the binary format returns no error and a sequence `vs` of the same
length as `fs`, whose element `i` is the value the registry's strategy for field `i`
produces when run on that field's bytes. -/
theorem C4_DecodeValue_wellformed {σ W D : Type} (fc : FormatCodes)
    (sc : ScannerOps σ W D) (fuel : Nat) (ci : ConnInfo W D) (oid : Nat) (src : Bytes)
    (fs : List Field) (final : σ)
    (hyield : drain sc fuel (sc.New ci src) = some (fs, final))
    (hwell : sc.Err final = none)
    (hcount : fs.length = sc.FieldCount (sc.New ci src))
    (hplans : ∀ f ∈ fs, ∃ p, ci.PlanScanValue f.oid fc.BinaryFormatCode = some p
      ∧ (p f.bytes).2 = none) :
    ∃ vs, RecordCodec.DecodeValue fc sc fuel ci oid fc.BinaryFormatCode (some src)
        = .returned (Value.slice vs, none)
      ∧ vs.length = fs.length
      ∧ ∀ (i : Nat) (f : Field) (p : Option Bytes → Value × Option Error),
          fs[i]? = some f → ci.PlanScanValue f.oid fc.BinaryFormatCode = some p →
          vs[i]? = some (p f.bytes).1 := by
  refine ⟨fs.map (fun f => (decodeField fc ci f).1), ?_, by simp, ?_⟩
  · simp only [RecordCodec.DecodeValue, if_neg fc.distinct.symm, if_true]
    rw [DecodeValue_loop_eq fc sc ci fuel _ 0 _ fs final hyield, hwell,
      decodeFields_ok fc ci fs 0 _ (decodeField_ok_of_plans fc ci fs hplans)
        (by simp [hcount])]
    simp [← hcount]
  · intro i f p hi hp
    simp [List.getElem?_map, hi, decodeField_of_plan fc ci f p hp]

/-- Claim C4, witness: a record of two 4-byte fields of type 23 holding 1 and 2 decodes
to the sequence `[1, 2]`. -/
theorem C4_witness :
    ∃ vs, RecordCodec.DecodeValue pgFormatCodes (compositeBinaryScanner (List Value) Nat)
          3 (int32Registry 23) 2249 pgFormatCodes.BinaryFormatCode
          (some [0, 0, 0, 2, 0, 0, 0, 23, 0, 0, 0, 4, 0, 0, 0, 1,
                 0, 0, 0, 23, 0, 0, 0, 4, 0, 0, 0, 2])
        = .returned (Value.slice vs, none)
      ∧ vs.length = [Field.mk 23 (some [0, 0, 0, 1]), Field.mk 23 (some [0, 0, 0, 2])].length
      ∧ ∀ (i : Nat) (f : Field) (p : Option Bytes → Value × Option Error),
          [Field.mk 23 (some [0, 0, 0, 1]), Field.mk 23 (some [0, 0, 0, 2])][i]? = some f →
          (int32Registry 23).PlanScanValue f.oid pgFormatCodes.BinaryFormatCode = some p →
          vs[i]? = some (p f.bytes).1 :=
  C4_DecodeValue_wellformed pgFormatCodes (compositeBinaryScanner (List Value) Nat) 3
    (int32Registry 23) 2249
    [0, 0, 0, 2, 0, 0, 0, 23, 0, 0, 0, 4, 0, 0, 0, 1, 0, 0, 0, 23, 0, 0, 0, 4, 0, 0, 0, 2]
    [Field.mk 23 (some [0, 0, 0, 1]), Field.mk 23 (some [0, 0, 0, 2])]
    { rest := [], fieldCount := 2, produced := 2, fieldOID := 23,
      fieldBytes := some [0, 0, 0, 2], err := none }
    rfl rfl rfl
    (by
      intro f hf
      simp only [List.mem_cons, List.mem_singleton, List.not_mem_nil, or_false] at hf
      rcases hf with rfl | rfl <;> exact ⟨int32Plan, rfl, rfl⟩)


/-- Claim C5: when the scanner, run on a buffer, yields the fields `pre`, then a
non-null field of type `z` with bytes `bs`, the registry has no strategy for `z`, every
field of `pre` has a strategy that succeeds, and the fields of `pre` fit the declared
field count (so that their values are stored), then `DecodeValue` in the binary format
fails with the "unable to scan OID" error that reports `z`, and the value returned with
it is nil: the slots decoded so far are not returned. -/
theorem C5_DecodeValue_unknown_field_type {σ W D : Type} (fc : FormatCodes)
    (sc : ScannerOps σ W D) (fuel : Nat) (ci : ConnInfo W D) (oid : Nat) (src : Bytes)
    (pre : List Field) (z : Nat) (bs : Bytes) (post : List Field) (final : σ)
    (hyield : drain sc fuel (sc.New ci src) = some (pre ++ ⟨z, some bs⟩ :: post, final))
    (hpre : ∀ f ∈ pre, ∃ p, ci.PlanScanValue f.oid fc.BinaryFormatCode = some p
      ∧ (p f.bytes).2 = none)
    (hfit : pre.length ≤ sc.FieldCount (sc.New ci src))
    (hz : ci.PlanScanValue z fc.BinaryFormatCode = none) :
    RecordCodec.DecodeValue fc sc fuel ci oid fc.BinaryFormatCode (some src)
      = .returned (Value.nil, some (Error.unableToScanOID z)) := by
  simp only [RecordCodec.DecodeValue, if_neg fc.distinct.symm, if_true]
  rw [DecodeValue_loop_eq fc sc ci fuel _ 0 _ _ final hyield]
  apply decodeFields_fail fc ci _ ⟨z, some bs⟩ post (Error.unableToScanOID z)
  · rw [decodeField_of_no_plan fc ci ⟨z, some bs⟩ hz]
  · exact decodeField_ok_of_plans fc ci pre hpre
  · simpa using hfit

/-- Claim C5, witness: the record `[fieldCount=1, (typeId=99, len=3, bytes=0x010203)]`
with 99 absent from the registry. -/
theorem C5_witness :
    RecordCodec.DecodeValue pgFormatCodes (compositeBinaryScanner (List Value) Nat) 2
        (int32Registry 23) 2249 pgFormatCodes.BinaryFormatCode
        (some [0, 0, 0, 1, 0, 0, 0, 99, 0, 0, 0, 3, 1, 2, 3])
      = .returned (Value.nil, some (Error.unableToScanOID 99)) :=
  C5_DecodeValue_unknown_field_type pgFormatCodes (compositeBinaryScanner (List Value) Nat)
    2 (int32Registry 23) 2249 [0, 0, 0, 1, 0, 0, 0, 99, 0, 0, 0, 3, 1, 2, 3] [] 99
    [1, 2, 3] []
    { rest := [], fieldCount := 1, produced := 1, fieldOID := 99,
      fieldBytes := some [1, 2, 3], err := none }
    rfl (by intro f hf; simp at hf) (by decide) rfl

/-- Claim C6: when the scanner, run on a buffer, yields the fields `fs` and then stops
with the error `err`, the decode returns `err`. `DecodeValue` returns it with a nil
value, provided every yielded field has a strategy that succeeds and the fields fit the
declared field count; `Scan` returns it, in place of success, provided every yielded
field is processed without error. -/
theorem C6_structural_error_is_returned {σ W D : Type} (fc : FormatCodes)
    (sc : ScannerOps σ W D) (fuel : Nat) (ci : ConnInfo W D) (oid : Nat) (src : Bytes)
    (fs : List Field) (final : σ) (err : Error)
    (hyield : drain sc fuel (sc.New ci src) = some (fs, final))
    (herr : sc.Err final = some err) :
    ((∀ f ∈ fs, ∃ p, ci.PlanScanValue f.oid fc.BinaryFormatCode = some p
          ∧ (p f.bytes).2 = none) →
      fs.length ≤ sc.FieldCount (sc.New ci src) →
      RecordCodec.DecodeValue fc sc fuel ci oid fc.BinaryFormatCode (some src)
        = .returned (Value.nil, some err))
    ∧ (∀ (targetScanner : CompositeIndexScanner W D) (w : W),
      (scanFields fc ci targetScanner fs 0 w).2 = none →
      scanPlanBinaryRecordToCompositeIndexScanner.Scan fc sc fuel ⟨ci⟩ (some src)
          (ScanTarget.indexScanner targetScanner) w
        = .returned ((scanFields fc ci targetScanner fs 0 w).1, some err)) := by
  constructor
  · intro hplans hfit
    simp only [RecordCodec.DecodeValue, if_neg fc.distinct.symm, if_true]
    rw [DecodeValue_loop_eq fc sc ci fuel _ 0 _ fs final hyield, herr]
    exact decodeFields_final_err fc ci err fs 0 _ (decodeField_ok_of_plans fc ci fs hplans)
      (by simpa using hfit)
  · intro targetScanner w hok
    simp only [scanPlanBinaryRecordToCompositeIndexScanner.Scan]
    rw [Scan_loop_eq fc sc ⟨ci⟩ targetScanner fuel _ 0 w fs final hyield]
    rcases hs : scanFields fc ci targetScanner fs 0 w with ⟨w1, e⟩
    rw [hs] at hok
    simp only at hok
    subst hok
    simp only [herr]

/-- Claim C6, witness: a record that declares three fields but ends after two. Both
fields decode, the scanner then reports the structural error, and both decode paths
return it: `DecodeValue` with a nil value, `Scan` in place of success. -/
theorem C6_witness :
    RecordCodec.DecodeValue pgFormatCodes (compositeBinaryScanner (List Value) Nat) 3
        (int32Registry 23) 2249 pgFormatCodes.BinaryFormatCode
        (some [0, 0, 0, 3, 0, 0, 0, 23, 0, 0, 0, 4, 0, 0, 0, 1,
               0, 0, 0, 23, 0, 0, 0, 4, 0, 0, 0, 2])
      = .returned (Value.nil, some Error.structural)
    ∧ scanPlanBinaryRecordToCompositeIndexScanner.Scan pgFormatCodes
        (compositeBinaryScanner (List Value) Nat) 3 ⟨int32Registry 23⟩
        (some [0, 0, 0, 3, 0, 0, 0, 23, 0, 0, 0, 4, 0, 0, 0, 1,
               0, 0, 0, 23, 0, 0, 0, 4, 0, 0, 0, 2])
        (ScanTarget.indexScanner cellSink) [Value.nil, Value.nil, Value.nil]
      = .returned ([Value.int32 1, Value.int32 2, Value.nil], some Error.structural) :=
  have h := C6_structural_error_is_returned pgFormatCodes
    (compositeBinaryScanner (List Value) Nat) 3 (int32Registry 23) 2249
    [0, 0, 0, 3, 0, 0, 0, 23, 0, 0, 0, 4, 0, 0, 0, 1, 0, 0, 0, 23, 0, 0, 0, 4, 0, 0, 0, 2]
    [Field.mk 23 (some [0, 0, 0, 1]), Field.mk 23 (some [0, 0, 0, 2])]
    { rest := [], fieldCount := 3, produced := 2, fieldOID := 23,
      fieldBytes := some [0, 0, 0, 2], err := some Error.structural }
    Error.structural rfl rfl
  ⟨h.1
      (by
        intro f hf
        simp only [List.mem_cons, List.mem_singleton, List.not_mem_nil, or_false] at hf
        rcases hf with rfl | rfl <;> exact ⟨int32Plan, rfl, rfl⟩)
      (by decide),
    h.2 cellSink [Value.nil, Value.nil, Value.nil] rfl⟩

/-- Claim C7, as amended: decoding into an IndexedSink is not rolled back. When `Scan`
returns an error, the sink is in the state reached by processing the yielded fields in
order up to the failure: if field `f` fails after the fields `pre` succeeded, the sink
keeps what was written for `pre` (and what the failing step itself wrote); if the
scanner reports a structural error after the fields `fs` succeeded, the sink keeps what
was written for all of `fs`. -/
theorem C7_Scan_error_keeps_earlier_writes {σ W D : Type} (fc : FormatCodes)
    (sc : ScannerOps σ W D) (fuel : Nat)
    (plan : scanPlanBinaryRecordToCompositeIndexScanner W D) (src : Bytes)
    (targetScanner : CompositeIndexScanner W D) (w : W) (fs : List Field) (final : σ)
    (hyield : drain sc fuel (sc.New plan.ci src) = some (fs, final)) :
    (∀ (pre : List Field) (f : Field) (post : List Field) (w1 w2 : W) (err : Error),
      fs = pre ++ f :: post →
      scanFields fc plan.ci targetScanner pre 0 w = (w1, none) →
      scanField fc plan.ci targetScanner f pre.length w1 = (w2, some err) →
      scanPlanBinaryRecordToCompositeIndexScanner.Scan fc sc fuel plan (some src)
          (ScanTarget.indexScanner targetScanner) w
        = .returned (w2, some err))
    ∧ (∀ (w1 : W) (err : Error),
      scanFields fc plan.ci targetScanner fs 0 w = (w1, none) →
      sc.Err final = some err →
      scanPlanBinaryRecordToCompositeIndexScanner.Scan fc sc fuel plan (some src)
          (ScanTarget.indexScanner targetScanner) w
        = .returned (w1, some err)) := by
  have hrun := Scan_loop_eq fc sc plan targetScanner fuel _ 0 w fs final hyield
  constructor
  · intro pre f post w1 w2 err hfs hpre hf
    simp only [scanPlanBinaryRecordToCompositeIndexScanner.Scan]
    rw [hrun, hfs, scanFields_append, hpre]
    simp only [scanFields, zero_add, hf]
  · intro w1 err hok herr
    simp only [scanPlanBinaryRecordToCompositeIndexScanner.Scan]
    rw [hrun, hok]
    simp only [herr]

/-- Claim C7, witness: a record of a 4-byte field of type 23 holding 5 and a 3-byte field
of type 23, which the int32 decoder rejects. `Scan` returns the decoder's error and the
first cell of the sink holds 5. -/
theorem C7_witness :
    scanPlanBinaryRecordToCompositeIndexScanner.Scan pgFormatCodes
        (compositeBinaryScanner (List Value) Nat) 3 ⟨int32Registry 23⟩
        (some [0, 0, 0, 2, 0, 0, 0, 23, 0, 0, 0, 4, 0, 0, 0, 5,
               0, 0, 0, 23, 0, 0, 0, 3, 1, 2, 3])
        (ScanTarget.indexScanner cellSink) [Value.nil, Value.nil]
      = .returned ([Value.int32 5, Value.nil], some (Error.other 0)) :=
  (C7_Scan_error_keeps_earlier_writes pgFormatCodes
    (compositeBinaryScanner (List Value) Nat) 3 ⟨int32Registry 23⟩
    [0, 0, 0, 2, 0, 0, 0, 23, 0, 0, 0, 4, 0, 0, 0, 5, 0, 0, 0, 23, 0, 0, 0, 3, 1, 2, 3]
    cellSink [Value.nil, Value.nil]
    [Field.mk 23 (some [0, 0, 0, 5]), Field.mk 23 (some [1, 2, 3])]
    { rest := [], fieldCount := 2, produced := 2, fieldOID := 23,
      fieldBytes := some [1, 2, 3], err := none }
    rfl).1
    [Field.mk 23 (some [0, 0, 0, 5])] (Field.mk 23 (some [1, 2, 3])) []
    [Value.int32 5, Value.nil] [Value.int32 5, Value.nil] (Error.other 0) rfl rfl rfl

/-- Claim C7 fails as stated: for a record of a 4-byte field of type 23 holding 1 and a
field of type 99 that the registry does not know, `Scan` returns the
"unable to scan OID 99" error and the first cell of the sink holds 1, so the sink is not
as it was before the call. -/
theorem C7_counterexample :
    scanPlanBinaryRecordToCompositeIndexScanner.Scan pgFormatCodes
        (compositeBinaryScanner (List Value) Nat) 3 ⟨int32Registry 23⟩
        (some [0, 0, 0, 2, 0, 0, 0, 23, 0, 0, 0, 4, 0, 0, 0, 1,
               0, 0, 0, 99, 0, 0, 0, 3, 1, 2, 3])
        (ScanTarget.indexScanner cellSink) [Value.nil, Value.nil]
      = .returned ([Value.int32 1, Value.nil], some (Error.unableToScanOID 99))
    ∧ ¬ ∃ err, scanPlanBinaryRecordToCompositeIndexScanner.Scan pgFormatCodes
          (compositeBinaryScanner (List Value) Nat) 3 ⟨int32Registry 23⟩
          (some [0, 0, 0, 2, 0, 0, 0, 23, 0, 0, 0, 4, 0, 0, 0, 1,
                 0, 0, 0, 99, 0, 0, 0, 3, 1, 2, 3])
          (ScanTarget.indexScanner cellSink) [Value.nil, Value.nil]
        = .returned ([Value.nil, Value.nil], some err) := by
  have h : scanPlanBinaryRecordToCompositeIndexScanner.Scan pgFormatCodes
        (compositeBinaryScanner (List Value) Nat) 3 ⟨int32Registry 23⟩
        (some [0, 0, 0, 2, 0, 0, 0, 23, 0, 0, 0, 4, 0, 0, 0, 1,
               0, 0, 0, 99, 0, 0, 0, 3, 1, 2, 3])
        (ScanTarget.indexScanner cellSink) [Value.nil, Value.nil]
      = .returned ([Value.int32 1, Value.nil], some (Error.unableToScanOID 99)) := by rfl
  refine ⟨h, ?_⟩
  rw [h]
  simp

/-- Claim C8: for every registry, type identifier, format, target and `actualTarget`
flag, `PlanScan` returns a plan if and only if the format is the binary format code and
the target implements `CompositeIndexScanner`; in every other case it returns the nil
plan (its result type has no error), and a returned plan carries the registry `ci`. -/
theorem C8_PlanScan_iff {W D : Type} (fc : FormatCodes) (ci : ConnInfo W D) (oid : Nat)
    (format : Int) (target : ScanTarget W D) (actualTarget : Bool) :
    ((RecordCodec.PlanScan fc ci oid format target actualTarget).isSome = true
        ↔ (format = fc.BinaryFormatCode ∧ ∃ t, target = ScanTarget.indexScanner t))
    ∧ ((RecordCodec.PlanScan fc ci oid format target actualTarget) = none
        ↔ ¬ (format = fc.BinaryFormatCode ∧ ∃ t, target = ScanTarget.indexScanner t))
    ∧ (∀ plan, RecordCodec.PlanScan fc ci oid format target actualTarget = some plan →
        plan.ci = ci) := by
  unfold RecordCodec.PlanScan
  by_cases hf : format = fc.BinaryFormatCode
  · cases target with
    | indexScanner t =>
      simp only [if_pos hf]
      refine ⟨by simp [hf], by simp [hf], ?_⟩
      intro plan h
      simp only [Option.some.injEq] at h
      rw [← h]
    | valueCell => simp [hf]
    | dest d => simp [hf]
  · simp [hf]

/-- Claim C9, as amended: `PlanScan` returns the nil plan when the target is a generic
value cell, for the binary format as for every other format; generic decoding is not
offered through `PlanScan`. -/
theorem C9_PlanScan_valueCell_none {W D : Type} (fc : FormatCodes) (ci : ConnInfo W D)
    (oid : Nat) (format : Int) (actualTarget : Bool) :
    RecordCodec.PlanScan fc ci oid format ScanTarget.valueCell actualTarget = none := by
  unfold RecordCodec.PlanScan
  split <;> rfl

/-- Claim C9 fails as stated: for the binary format and a generic value cell as target,
`PlanScan` returns the nil plan, not a strategy. -/
theorem C9_counterexample :
    RecordCodec.PlanScan pgFormatCodes (int32Registry 23) 2249
        pgFormatCodes.BinaryFormatCode ScanTarget.valueCell true = none
    ∧ ¬ (RecordCodec.PlanScan pgFormatCodes (int32Registry 23) 2249
        pgFormatCodes.BinaryFormatCode ScanTarget.valueCell true).isSome = true := by
  constructor
  · rfl
  · simp [RecordCodec.PlanScan]

/-- Claim C10: for every registry, type identifier, format code and value, `PlanEncode`
returns the nil plan. -/
theorem C10_PlanEncode_none {W D : Type} (ci : ConnInfo W D) (oid : Nat) (format : Int)
    (value : Value) : RecordCodec.PlanEncode ci oid format value = none := by
  rfl

/-- Claim C11: for every format code `f`, `FormatSupported(f)` is true exactly when `f`
equals `PreferredFormat()`; `PreferredFormat()` is the binary format code; and
`FormatSupported` is false for the text format code. -/
theorem C11_FormatSupported_iff_preferred (fc : FormatCodes) (f : Int) :
    (RecordCodec.FormatSupported fc f = true ↔ f = RecordCodec.PreferredFormat fc)
    ∧ RecordCodec.PreferredFormat fc = fc.BinaryFormatCode
    ∧ RecordCodec.FormatSupported fc fc.TextFormatCode = false := by
  refine ⟨by simp [RecordCodec.FormatSupported, RecordCodec.PreferredFormat], rfl, ?_⟩
  simp [RecordCodec.FormatSupported, fc.distinct]

/-- Claim C12: for nil input bytes and every registry, type identifier and format code,
the text code and unrecognized codes included, `DecodeValue` returns the nil value with
a nil error. The result is the same for every scanner implementation, every registry
and every fuel, zero included: no scanner step and no registry lookup takes part. -/
theorem C12_DecodeValue_nil_src {σ W D : Type} (fc : FormatCodes) (sc : ScannerOps σ W D)
    (fuel : Nat) (ci : ConnInfo W D) (oid : Nat) (format : Int) :
    RecordCodec.DecodeValue fc sc fuel ci oid format none = .returned (Value.nil, none)
    ∧ RecordCodec.DecodeValue fc sc fuel ci oid fc.TextFormatCode none
        = .returned (Value.nil, none)
    ∧ RecordCodec.DecodeValue fc sc 0 ci oid format none = .returned (Value.nil, none) :=
  ⟨rfl, rfl, rfl⟩

/-- Claim C13: for every non-nil `src` and every format code that is neither the binary
nor the text code, `DecodeValue` fails with the "unknown format code" error, which
reports the code, and a nil value. The result is the same for every scanner
implementation, every registry and every fuel, zero included: no scanner step and no
registry lookup takes part. -/
theorem C13_DecodeValue_unknown_format {σ W D : Type} (fc : FormatCodes)
    (sc : ScannerOps σ W D) (fuel : Nat) (ci : ConnInfo W D) (oid : Nat) (format : Int)
    (src : Bytes) (htext : format ≠ fc.TextFormatCode)
    (hbinary : format ≠ fc.BinaryFormatCode) :
    RecordCodec.DecodeValue fc sc fuel ci oid format (some src)
      = .returned (Value.nil, some (Error.unknownFormatCode format)) := by
  simp [RecordCodec.DecodeValue, htext, hbinary]

/-- Claim C13, witness: format code 2 and a well-formed binary record, with no fuel. -/
theorem C13_witness :
    RecordCodec.DecodeValue pgFormatCodes (compositeBinaryScanner (List Value) Nat) 0
        (int32Registry 23) 2249 2 (some [0, 0, 0, 1, 0, 0, 0, 23, 0, 0, 0, 4, 0, 0, 0, 1])
      = .returned (Value.nil, some (Error.unknownFormatCode 2)) :=
  C13_DecodeValue_unknown_format pgFormatCodes (compositeBinaryScanner (List Value) Nat) 0
    (int32Registry 23) 2249 2 [0, 0, 0, 1, 0, 0, 0, 23, 0, 0, 0, 4, 0, 0, 0, 1]
    (by decide) (by decide)


/-- Claim C14: in the IndexedSink path a field whose destination the sink declines is
skipped without error, whatever its type identifier and bytes and whatever the registry
holds for it: when the scanner yields `pre`, then `f`, then `post`, the fields of `pre`
succeed and `ScanIndex` returns no destination for `f`, `Scan` goes on with `post` in the
sink state `ScanIndex` left. Consequently, for a sink that declines every index and a
scanner that ends without a structural error, `Scan` returns success for every
registry, and leaves the sink unchanged when `ScanIndex` does. -/
theorem C14_Scan_declined_field_is_skipped {σ W D : Type} (fc : FormatCodes)
    (sc : ScannerOps σ W D) (fuel : Nat)
    (plan : scanPlanBinaryRecordToCompositeIndexScanner W D) (src : Bytes)
    (targetScanner : CompositeIndexScanner W D) (w : W) (fs : List Field) (final : σ)
    (hyield : drain sc fuel (sc.New plan.ci src) = some (fs, final)) :
    (∀ (pre : List Field) (f : Field) (post : List Field) (w1 w2 : W),
      fs = pre ++ f :: post →
      scanFields fc plan.ci targetScanner pre 0 w = (w1, none) →
      targetScanner.ScanIndex pre.length w1 = (w2, none) →
      scanPlanBinaryRecordToCompositeIndexScanner.Scan fc sc fuel plan (some src)
          (ScanTarget.indexScanner targetScanner) w
        = match scanFields fc plan.ci targetScanner post (pre.length + 1) w2 with
          | (w3, some err) => .returned (w3, some err)
          | (w3, none) => .returned (w3, sc.Err final))
    ∧ ((∀ i v, (targetScanner.ScanIndex i v).2 = none) → sc.Err final = none →
      (∃ w1, scanPlanBinaryRecordToCompositeIndexScanner.Scan fc sc fuel plan (some src)
          (ScanTarget.indexScanner targetScanner) w = .returned (w1, none))
      ∧ ((∀ i v, (targetScanner.ScanIndex i v).1 = v) →
        scanPlanBinaryRecordToCompositeIndexScanner.Scan fc sc fuel plan (some src)
          (ScanTarget.indexScanner targetScanner) w = .returned (w, none))) := by
  have hrun := Scan_loop_eq fc sc plan targetScanner fuel _ 0 w fs final hyield
  constructor
  · intro pre f post w1 w2 hfs hpre hdecl
    simp only [scanPlanBinaryRecordToCompositeIndexScanner.Scan]
    rw [hrun, hfs, scanFields_append, hpre]
    simp only [scanFields, scanField, zero_add, hdecl]
  · intro hdecl herr
    have hskip : ∀ (gs : List Field) (i : Nat) (v : W),
        (scanFields fc plan.ci targetScanner gs i v).2 = none
        ∧ ((∀ i v, (targetScanner.ScanIndex i v).1 = v) →
          (scanFields fc plan.ci targetScanner gs i v).1 = v) := by
      intro gs
      induction gs with
      | nil => intro i v; exact ⟨rfl, fun _ => rfl⟩
      | cons g gs ih =>
        intro i v
        rcases hs : targetScanner.ScanIndex i v with ⟨v1, d⟩
        have hd : d = none := by have := hdecl i v; rw [hs] at this; exact this
        subst hd
        simp only [scanFields, scanField, hs]
        refine ⟨(ih (i + 1) v1).1, fun hpure => ?_⟩
        have hv : v1 = v := by have := hpure i v; rw [hs] at this; exact this
        rw [(ih (i + 1) v1).2 hpure, hv]
    simp only [scanPlanBinaryRecordToCompositeIndexScanner.Scan]
    rw [hrun]
    rcases hs : scanFields fc plan.ci targetScanner fs 0 w with ⟨w1, e⟩
    have h1 := (hskip fs 0 w).1
    have h2 := (hskip fs 0 w).2
    rw [hs] at h1 h2
    simp only at h1 h2
    subst h1
    simp only [herr]
    refine ⟨⟨w1, rfl⟩, fun hpure => ?_⟩
    rw [h2 hpure]

/-- Claim C14, witness: a record with one field of type 99, which the registry does not
know, and a sink that declines every index: `Scan` returns success and leaves the sink
as it was. -/
theorem C14_witness :
    scanPlanBinaryRecordToCompositeIndexScanner.Scan pgFormatCodes
        (compositeBinaryScanner (List Value) Nat) 2 ⟨int32Registry 23⟩
        (some [0, 0, 0, 1, 0, 0, 0, 99, 0, 0, 0, 3, 1, 2, 3])
        (ScanTarget.indexScanner decliningSink) [Value.int32 7]
      = .returned ([Value.int32 7], none) :=
  ((C14_Scan_declined_field_is_skipped pgFormatCodes
    (compositeBinaryScanner (List Value) Nat) 2 ⟨int32Registry 23⟩
    [0, 0, 0, 1, 0, 0, 0, 99, 0, 0, 0, 3, 1, 2, 3] decliningSink [Value.int32 7]
    [Field.mk 99 (some [1, 2, 3])]
    { rest := [], fieldCount := 1, produced := 1, fieldOID := 99,
      fieldBytes := some [1, 2, 3], err := none }
    rfl).2 (fun _ _ => rfl) rfl).2 (fun _ _ => rfl)

/-- Claim C15: in both decode paths, when the fields before `f` succeed and the nested
strategy for `f` returns the error `err`, the decode returns exactly `err`, whatever
fields `post` follow and whatever the registry holds for them; `DecodeValue` returns a
nil value with it. -/
theorem C15_nested_error_is_returned {σ W D : Type} (fc : FormatCodes)
    (sc : ScannerOps σ W D) (fuel : Nat) (ci : ConnInfo W D) (oid : Nat) (src : Bytes)
    (pre : List Field) (f : Field) (post : List Field) (final : σ) (err : Error)
    (hyield : drain sc fuel (sc.New ci src) = some (pre ++ f :: post, final)) :
    ((∀ g ∈ pre, ∃ p, ci.PlanScanValue g.oid fc.BinaryFormatCode = some p
          ∧ (p g.bytes).2 = none) →
      pre.length ≤ sc.FieldCount (sc.New ci src) →
      ∀ p, ci.PlanScanValue f.oid fc.BinaryFormatCode = some p →
      (p f.bytes).2 = some err →
      RecordCodec.DecodeValue fc sc fuel ci oid fc.BinaryFormatCode (some src)
        = .returned (Value.nil, some err))
    ∧ (∀ (targetScanner : CompositeIndexScanner W D) (w w1 w2 w3 : W) (d : D)
        (p : ScanPlan W D),
      scanFields fc ci targetScanner pre 0 w = (w1, none) →
      targetScanner.ScanIndex pre.length w1 = (w2, some d) →
      ci.PlanScan f.oid fc.BinaryFormatCode d = some p →
      p.Scan f.bytes d w2 = (w3, some err) →
      scanPlanBinaryRecordToCompositeIndexScanner.Scan fc sc fuel ⟨ci⟩ (some src)
          (ScanTarget.indexScanner targetScanner) w
        = .returned (w3, some err)) := by
  constructor
  · intro hpre hfit p hp hperr
    simp only [RecordCodec.DecodeValue, if_neg fc.distinct.symm, if_true]
    rw [DecodeValue_loop_eq fc sc ci fuel _ 0 _ _ final hyield]
    apply decodeFields_fail fc ci _ f post err
    · rw [decodeField_of_plan fc ci f p hp]
      exact hperr
    · exact decodeField_ok_of_plans fc ci pre hpre
    · simpa using hfit
  · intro targetScanner w w1 w2 w3 d p hpre hdest hp hs
    simp only [scanPlanBinaryRecordToCompositeIndexScanner.Scan]
    rw [Scan_loop_eq fc sc ⟨ci⟩ targetScanner fuel _ 0 w _ final hyield,
      scanFields_append, hpre]
    simp only [scanFields, scanField, zero_add, hdest, hp, hs]

/-- Claim C15, witness: a record of a 3-byte field of type 23, which the int32 decoder
rejects with its own error, followed by a field of type 99 that the registry does not
know. Both paths return the decoder's error; the second field plays no part. -/
theorem C15_witness :
    RecordCodec.DecodeValue pgFormatCodes (compositeBinaryScanner (List Value) Nat) 3
        (int32Registry 23) 2249 pgFormatCodes.BinaryFormatCode
        (some [0, 0, 0, 2, 0, 0, 0, 23, 0, 0, 0, 3, 7, 8, 9,
               0, 0, 0, 99, 0, 0, 0, 1, 5])
      = .returned (Value.nil, some (Error.other 0))
    ∧ scanPlanBinaryRecordToCompositeIndexScanner.Scan pgFormatCodes
        (compositeBinaryScanner (List Value) Nat) 3 ⟨int32Registry 23⟩
        (some [0, 0, 0, 2, 0, 0, 0, 23, 0, 0, 0, 3, 7, 8, 9,
               0, 0, 0, 99, 0, 0, 0, 1, 5])
        (ScanTarget.indexScanner cellSink) [Value.nil, Value.nil]
      = .returned ([Value.nil, Value.nil], some (Error.other 0)) :=
  have h := C15_nested_error_is_returned pgFormatCodes
    (compositeBinaryScanner (List Value) Nat) 3 (int32Registry 23) 2249
    [0, 0, 0, 2, 0, 0, 0, 23, 0, 0, 0, 3, 7, 8, 9, 0, 0, 0, 99, 0, 0, 0, 1, 5]
    [] (Field.mk 23 (some [7, 8, 9])) [Field.mk 99 (some [5])]
    { rest := [], fieldCount := 2, produced := 2, fieldOID := 99,
      fieldBytes := some [5], err := none }
    (Error.other 0) rfl
  ⟨h.1 (by intro g hg; simp at hg) (by decide) int32Plan rfl rfl,
    h.2 cellSink [Value.nil, Value.nil] [Value.nil, Value.nil] [Value.nil, Value.nil]
      [Value.nil, Value.nil] 0 int32CellPlan rfl rfl rfl rfl⟩


/-- Claim C16: run `Scan` with a log of the calls made on the sink and on the plans the
registry resolves. When the scanner yields the fields `fs` and `Scan` succeeds, the log
is, for the indices `0, 1, ..., fs.length - 1` in increasing order, one call
`ScanIndex(i)` each, followed, when the destination `d` it returned is present, by one
run of the plan resolved for (type identifier of field `i`, binary format, `d`) on
(bytes of field `i`, `d`), and nothing else; the sink ends in the state that processing
the fields in order produces. -/
theorem C16_Scan_calls_in_wire_order {σ W D : Type} (fc : FormatCodes)
    (sc : ScannerOps σ (W × List (Call D)) D) (fuel : Nat) (ci : ConnInfo W D)
    (src : Bytes) (targetScanner : CompositeIndexScanner W D) (w w1 : W)
    (log : List (Call D)) (fs : List Field) (final : σ)
    (hyield : drain sc fuel (sc.New ci.logged src) = some (fs, final))
    (hok : scanPlanBinaryRecordToCompositeIndexScanner.Scan fc sc fuel ⟨ci.logged⟩
        (some src) (ScanTarget.indexScanner targetScanner.logged) (w, [])
      = .returned ((w1, log), none)) :
    scanFields fc ci targetScanner fs 0 w = (w1, none)
    ∧ log.filterMap
          (fun c => match c with
            | Call.scanIndex j _ => some j
            | Call.planScan _ _ _ _ _ => none)
        = List.range fs.length
    ∧ ∃ ds : List (Option D), ds.length = fs.length ∧ log = expectedCalls fc fs ds 0 := by
  simp only [scanPlanBinaryRecordToCompositeIndexScanner.Scan] at hok
  rw [Scan_loop_eq fc sc ⟨ci.logged⟩ targetScanner.logged fuel _ 0 (w, []) fs final hyield]
    at hok
  obtain ⟨h1, h2, h3⟩ := scanFields_logged fc ci targetScanner fs 0 w []
  rcases hsl : scanFields fc ci.logged targetScanner.logged fs 0 (w, [])
    with ⟨⟨w2, log2⟩, _ | err⟩
  · rw [hsl] at hok h1 h2 h3
    simp only [Outcome.returned.injEq, Prod.mk.injEq] at hok
    obtain ⟨⟨hw, hl⟩, _⟩ := hok
    subst hw hl
    simp only at h1 h2 h3
    obtain ⟨ds, hlen, hlog⟩ := h3 h2.symm
    simp only [List.nil_append] at hlog
    refine ⟨?_, ?_, ds, hlen, hlog⟩
    · rcases hp : scanFields fc ci targetScanner fs 0 w with ⟨w3, e⟩
      rw [hp] at h1 h2
      simp only at h1 h2
      rw [h1, ← h2]
    · rw [hlog, expectedCalls_indices fc fs ds 0 hlen, List.range_eq_range']
  · rw [hsl] at hok
    simp at hok

/-- Claim C16, witness: a record of two 4-byte fields of type 23 holding 1 and 2 and a
sink with one cell. The log is `ScanIndex(0)`, the run of the plan for
(23, binary, cell 0) on the bytes of field 0 and cell 0, then `ScanIndex(1)`, which
returns no destination. -/
theorem C16_witness :
    scanFields pgFormatCodes (int32Registry 23) cellSink
        [Field.mk 23 (some [0, 0, 0, 1]), Field.mk 23 (some [0, 0, 0, 2])] 0 [Value.nil]
      = ([Value.int32 1], none)
    ∧ [Call.scanIndex 0 (some 0), Call.planScan 23 1 0 (some [0, 0, 0, 1]) 0,
        Call.scanIndex 1 (none : Option Nat)].filterMap
          (fun c => match c with
            | Call.scanIndex j _ => some j
            | Call.planScan _ _ _ _ _ => none)
        = List.range [Field.mk 23 (some [0, 0, 0, 1]), Field.mk 23 (some [0, 0, 0, 2])].length
    ∧ ∃ ds : List (Option Nat),
        ds.length = [Field.mk 23 (some [0, 0, 0, 1]), Field.mk 23 (some [0, 0, 0, 2])].length
        ∧ [Call.scanIndex 0 (some 0), Call.planScan 23 1 0 (some [0, 0, 0, 1]) 0,
            Call.scanIndex 1 (none : Option Nat)]
          = expectedCalls pgFormatCodes
              [Field.mk 23 (some [0, 0, 0, 1]), Field.mk 23 (some [0, 0, 0, 2])] ds 0 :=
  C16_Scan_calls_in_wire_order pgFormatCodes
    (compositeBinaryScanner (List Value × List (Call Nat)) Nat) 3 (int32Registry 23)
    [0, 0, 0, 2, 0, 0, 0, 23, 0, 0, 0, 4, 0, 0, 0, 1, 0, 0, 0, 23, 0, 0, 0, 4, 0, 0, 0, 2]
    cellSink [Value.nil] [Value.int32 1]
    [Call.scanIndex 0 (some 0), Call.planScan 23 1 0 (some [0, 0, 0, 1]) 0,
      Call.scanIndex 1 none]
    [Field.mk 23 (some [0, 0, 0, 1]), Field.mk 23 (some [0, 0, 0, 2])]
    { rest := [], fieldCount := 2, produced := 2, fieldOID := 23,
      fieldBytes := some [0, 0, 0, 2], err := none }
    rfl rfl

/-- Claim C17: when the scanner yields at most `FieldCount()` fields, `DecodeValue` does
not panic, for every buffer, format and registry: each store `values[i] = v` is within
the bounds of the sequence. When the scanner yields more fields than it declared and the
first `FieldCount() + 1` of them have strategies that succeed, the store for the field
at index `FieldCount()` is out of range and `DecodeValue` panics. -/
theorem C17_DecodeValue_store_bounds {W D : Type} (fc : FormatCodes) (ci : ConnInfo W D)
    (oid : Nat) :
    (∀ (σ : Type) (sc : ScannerOps σ W D) (fuel : Nat) (format : Int) (src : Bytes)
        (fs : List Field) (final : σ),
      drain sc fuel (sc.New ci src) = some (fs, final) →
      fs.length ≤ sc.FieldCount (sc.New ci src) →
      RecordCodec.DecodeValue fc sc fuel ci oid format (some src) ≠ .panicked)
    ∧ (∀ (σ : Type) (sc : ScannerOps σ W D) (fuel : Nat) (src : Bytes)
        (pre : List Field) (f : Field) (post : List Field) (final : σ),
      drain sc fuel (sc.New ci src) = some (pre ++ f :: post, final) →
      pre.length = sc.FieldCount (sc.New ci src) →
      (∀ g ∈ pre ++ [f], ∃ p, ci.PlanScanValue g.oid fc.BinaryFormatCode = some p
        ∧ (p g.bytes).2 = none) →
      RecordCodec.DecodeValue fc sc fuel ci oid fc.BinaryFormatCode (some src)
        = .panicked) := by
  constructor
  · intro σ sc fuel format src fs final hyield hle
    simp only [RecordCodec.DecodeValue]
    split
    · simp
    · split
      · rw [DecodeValue_loop_eq fc sc ci fuel _ 0 _ fs final hyield]
        exact decodeFields_no_panic fc ci _ fs 0 _ (by simpa using hle)
      · simp
  · intro σ sc fuel src pre f post final hyield hlen hplans
    have hall := decodeField_ok_of_plans fc ci (pre ++ [f]) hplans
    simp only [RecordCodec.DecodeValue, if_neg fc.distinct.symm, if_true]
    rw [DecodeValue_loop_eq fc sc ci fuel _ 0 _ _ final hyield]
    apply decodeFields_panic fc ci _ f post
    · exact hall f (by simp)
    · intro g hg
      exact hall g (by simp [hg])
    · simp [hlen]

/-- Claim C17, witness: a scanner that declares one field and yields one field of type
23 does not make `DecodeValue` panic; a scanner that declares no field and yields the
same field makes the store `values[0] = v` panic. -/
theorem C17_witness :
    RecordCodec.DecodeValue pgFormatCodes
        (replayScanner (List Value) Nat 1 [Field.mk 23 (some [0, 0, 0, 1])] none) 2
        (int32Registry 23) 2249 pgFormatCodes.BinaryFormatCode (some [])
      ≠ .panicked
    ∧ RecordCodec.DecodeValue pgFormatCodes
        (replayScanner (List Value) Nat 0 [Field.mk 23 (some [0, 0, 0, 1])] none) 2
        (int32Registry 23) 2249 pgFormatCodes.BinaryFormatCode (some [])
      = .panicked :=
  ⟨(C17_DecodeValue_store_bounds pgFormatCodes (int32Registry 23) 2249).1 ReplayScanner
      (replayScanner (List Value) Nat 1 [Field.mk 23 (some [0, 0, 0, 1])] none) 2
      pgFormatCodes.BinaryFormatCode [] [Field.mk 23 (some [0, 0, 0, 1])]
      { declared := 1, pending := [], current := Field.mk 23 (some [0, 0, 0, 1]),
        err := none }
      rfl (by decide),
    (C17_DecodeValue_store_bounds pgFormatCodes (int32Registry 23) 2249).2 ReplayScanner
      (replayScanner (List Value) Nat 0 [Field.mk 23 (some [0, 0, 0, 1])] none) 2
      [] [] (Field.mk 23 (some [0, 0, 0, 1])) []
      { declared := 0, pending := [], current := Field.mk 23 (some [0, 0, 0, 1]),
        err := none }
      rfl rfl
      (by
        intro g hg
        simp only [List.nil_append, List.mem_singleton] at hg
        subst hg
        exact ⟨int32Plan, rfl, rfl⟩)⟩

/-- Claim C18: for nil input bytes `Scan` returns exactly the result of the target's
`ScanNull`, success or error, for every scanner implementation, fuel and registry and
whatever the target's `ScanIndex` is; in a logged run the log is left as it was, so no
`ScanIndex` call and no plan run took place. -/
theorem C18_Scan_nil_src {σ W D : Type} (fc : FormatCodes) (sc : ScannerOps σ W D)
    (fuel : Nat) (plan : scanPlanBinaryRecordToCompositeIndexScanner W D)
    (targetScanner : CompositeIndexScanner W D) (w : W) :
    scanPlanBinaryRecordToCompositeIndexScanner.Scan fc sc fuel plan none
        (ScanTarget.indexScanner targetScanner) w
      = .returned (targetScanner.ScanNull w)
    ∧ (∀ (scanIndex : Nat → W → W × Option D),
      scanPlanBinaryRecordToCompositeIndexScanner.Scan fc sc 0 plan none
          (ScanTarget.indexScanner ⟨targetScanner.ScanNull, scanIndex⟩) w
        = .returned (targetScanner.ScanNull w))
    ∧ (∀ (τ : Type) (lsc : ScannerOps τ (W × List (Call D)) D) (log : List (Call D)),
      scanPlanBinaryRecordToCompositeIndexScanner.Scan fc lsc fuel ⟨plan.ci.logged⟩ none
          (ScanTarget.indexScanner targetScanner.logged) (w, log)
        = .returned (((targetScanner.ScanNull w).1, log), (targetScanner.ScanNull w).2)) :=
  ⟨rfl, fun _ => rfl, fun _ _ _ => rfl⟩

/-- Claim C19: `DecodeDatabaseSQLValue` returns a nil value and a nil error when `src`
is nil; for every non-nil `src` and every format code it returns a nil value with the
"not implemented" error; and its result depends only on whether `src` is nil, not on
the registry, the type identifier, the format or the contents of the buffer. -/
theorem C19_DecodeDatabaseSQLValue {W D : Type} (ci : ConnInfo W D) (oid : Nat)
    (format : Int) :
    RecordCodec.DecodeDatabaseSQLValue ci oid format none = (Value.nil, none)
    ∧ (∀ src : Bytes,
      RecordCodec.DecodeDatabaseSQLValue ci oid format (some src)
          = (Value.nil, some Error.notImplemented)
        ∧ (RecordCodec.DecodeDatabaseSQLValue ci oid format (some src)).1 = Value.nil
        ∧ (RecordCodec.DecodeDatabaseSQLValue ci oid format (some src)).2 ≠ none)
    ∧ (∀ (ci2 : ConnInfo W D) (oid2 : Nat) (format2 : Int) (src src2 : Option Bytes),
      src.isSome = src2.isSome →
      RecordCodec.DecodeDatabaseSQLValue ci oid format src
        = RecordCodec.DecodeDatabaseSQLValue ci2 oid2 format2 src2) := by
  refine ⟨rfl, fun src => ⟨rfl, rfl, by simp [RecordCodec.DecodeDatabaseSQLValue]⟩, ?_⟩
  intro ci2 oid2 format2 src src2 h
  cases src <;> cases src2 <;> simp_all [RecordCodec.DecodeDatabaseSQLValue]

/-- Claim C19, witness: a well-formed binary record in the binary format gets the same
result as any other non-nil input: a nil value with the "not implemented" error. -/
theorem C19_witness :
    RecordCodec.DecodeDatabaseSQLValue (int32Registry 23) 2249 1
        (some [0, 0, 0, 1, 0, 0, 0, 23, 0, 0, 0, 4, 0, 0, 0, 1])
      = RecordCodec.DecodeDatabaseSQLValue (int32Registry 25) 0 0 (some []) :=
  (C19_DecodeDatabaseSQLValue (int32Registry 23) 2249 1).2.2 (int32Registry 25) 0 0
    (some [0, 0, 0, 1, 0, 0, 0, 23, 0, 0, 0, 4, 0, 0, 0, 1]) (some []) rfl

end Pgtype
